import Mathlib

/-!
Formal model of the Building-Vitals ingestion engine.

This file gives a shallow embedding, in Lean, of the windowed, resumable,
idempotent ingestion engine implemented in `functions/main.py` and
`scripts/python/backfill_paginated_raw.py`, and proves (or refutes) the
stated properties of that engine.

Modelling conventions:
* Python `float` values are modelled by `PyFloat`: a finite rational or one
  of the non-finite values NaN / +Infinity / -Infinity.  Rounding of finite
  doubles is not modelled (no claim here depends on it); overflow of string
  literals to infinity is modelled with the 2^1024 cutoff.
* `datetime` objects are modelled by `PyDateTime` (civil fields plus an
  optional fixed UTC offset in minutes); the process-local timezone is an
  explicit parameter `tz` (minutes east of UTC, DST not modelled).
* Machine integers are `Int`/`Nat` (no overflow is relevant at these sizes).
* Fallible code returns `Option`/`Except`; a raised exception that a caller
  does not catch is an `Except.error` that propagates.
* External collaborators (the telemetry HTTP API, wall-clock time, the
  random jitter) are oracle parameters of the functions that consume them.
-/

namespace BV

/-- Model of a Python `float` value: a finite rational, NaN, or ±Infinity. -/
inductive PyFloat where
  | fin (q : ℚ)
  | nan
  | inf
  | ninf
deriving DecidableEq

/-- `math.isfinite`. -/
def PyFloat.isFinite : PyFloat → Bool
  | .fin _ => true
  | _ => false

/-- Python `v == v` on a float: false exactly for NaN (the NaN test used by
`transform_samples`, main.py line 388). -/
def PyFloat.selfEq : PyFloat → Bool
  | .nan => false
  | _ => true

/-- ASCII whitespace for `str.strip()`. -/
def isPySpace (c : Char) : Bool :=
  c = ' ' || c = '\t' || c = '\n' || c = '\r' || c = '\x0b' || c = '\x0c'

/-- Python `str.strip()` (ASCII whitespace). -/
def pyStrip (s : String) : String :=
  ⟨((s.data.dropWhile isPySpace).reverse.dropWhile isPySpace).reverse⟩

/-- Python `str.lower()` (ASCII), over the character list. -/
def pyToLower (s : String) : String := ⟨s.data.map Char.toLower⟩

/-- Digit value of a character, if it is a decimal digit. -/
def digitVal (c : Char) : Option ℕ :=
  if c.isDigit then some (c.toNat - '0'.toNat) else none

/-- Parse a non-empty all-digit character list as a natural number. -/
def parseNatDigits : List Char → Option ℕ
  | [] => none
  | cs => cs.foldlM (fun acc c => (digitVal c).map (fun d => acc * 10 + d)) 0

/-- Parse the mantissa of a float literal: `digits`, `digits.`, `.digits`
or `digits.digits`. -/
def parseMantissa (cs : List Char) : Option ℚ :=
  match cs.splitOnP (fun c => decide (c = '.')) with
  | [ip] => (parseNatDigits ip).map (fun n => (n : ℚ))
  | [ip, fp] =>
    if ip = [] ∧ fp = [] then none
    else
      let ipn := if ip = [] then some 0 else parseNatDigits ip
      let fpn := if fp = [] then some 0 else parseNatDigits fp
      match ipn, fpn with
      | some i, some f => some ((i : ℚ) + (f : ℚ) / (10 : ℚ) ^ fp.length)
      | _, _ => none
  | _ => none

/-- Parse an optionally signed exponent. -/
def parseExponent (cs : List Char) : Option ℤ :=
  match cs with
  | '+' :: rest => (parseNatDigits rest).map (fun n => (n : ℤ))
  | '-' :: rest => (parseNatDigits rest).map (fun n => -(n : ℤ))
  | rest => (parseNatDigits rest).map (fun n => (n : ℤ))

/-- Parse an unsigned float literal `mantissa[e exponent]`. -/
def parseUnsignedFloat (cs : List Char) : Option ℚ :=
  match cs.splitOnP (fun c => decide (c = 'e')) with
  | [m] => parseMantissa m
  | [m, e] =>
    match parseMantissa m, parseExponent e with
    | some q, some ex => some (q * (10 : ℚ) ^ ex)
    | _, _ => none
  | _ => none

/-- Double-precision overflow cutoff: string literals whose magnitude reaches
`2^1024` coerce to ±Infinity in Python (`float("1e400") == inf`). -/
def floatOverflow : ℚ := 2 ^ 1024

/-- Model of Python `float(str)`: strip, case-insensitive special names
`inf`/`infinity`/`nan` with optional sign, otherwise a decimal literal
(with optional fraction and exponent); `none` models a raised `ValueError`. -/
def floatOfString (s : String) : Option PyFloat :=
  let t := pyToLower (pyStrip s)
  let neg : Bool := match t.data with | '-' :: _ => true | _ => false
  let body : List Char :=
    match t.data with
    | '+' :: rest => rest
    | '-' :: rest => rest
    | cs => cs
  if body = "inf".data ∨ body = "infinity".data then
    some (if neg then .ninf else .inf)
  else if body = "nan".data then some .nan
  else
    match parseUnsignedFloat body with
    | none => none
    | some q =>
      if floatOverflow ≤ q then some (if neg then .ninf else .inf)
      else some (.fin (if neg then -q else q))

/-- An untrusted JSON scalar as it appears in a raw record's `value` field. -/
inductive PyVal where
  | pint (n : ℤ)
  | pfloat (f : PyFloat)
  | pstr (s : String)
  | pnone
deriving DecidableEq

/-- Python `float(x)` coercion; `none` models a raised exception. -/
def pyFloatOf : PyVal → Option PyFloat
  | .pint n => some (.fin (n : ℚ))
  | .pfloat f => some f
  | .pstr s => floatOfString s
  | .pnone => none

/-- An untrusted timestamp field: epoch-milliseconds integer, ISO string, or
absent/null.  (Float timestamps do not occur upstream and are not modelled.) -/
inductive TimeVal where
  | tint (n : ℤ)
  | tstr (s : String)
  | tnone
deriving DecidableEq

/-- Python truthiness of a timestamp field (`0`, `""` and `None` are falsy). -/
def TimeVal.truthy : TimeVal → Bool
  | .tint n => decide (n ≠ 0)
  | .tstr s => decide (s ≠ "")
  | .tnone => false

/-- Python `a or b` on timestamp fields. -/
def TimeVal.pyOr (a b : TimeVal) : TimeVal := if a.truthy then a else b

/-- Python `a or b` on optional strings (`None` and `""` are falsy). -/
def strOr (a b : Option String) : Option String :=
  match a with
  | some s => if s = "" then b else some s
  | none => b

/-- Collapse a falsy final result of an `or`-chain (`if not name: reject`). -/
def truthyStr : Option String → Option String
  | some s => if s = "" then none else some s
  | none => none

/-! ### Calendar arithmetic (proleptic Gregorian) -/

/-- Days since 1970-01-01 of a civil date (Howard Hinnant's algorithm). -/
def daysFromCivil (y : ℤ) (m d : ℕ) : ℤ :=
  let y' : ℤ := if m ≤ 2 then y - 1 else y
  let era : ℤ := Int.fdiv y' 400
  let yoe : ℕ := (y' - era * 400).toNat
  let mp : ℕ := if 2 < m then m - 3 else m + 9
  let doy : ℕ := (153 * mp + 2) / 5 + d - 1
  let doe : ℕ := yoe * 365 + yoe / 4 - yoe / 100 + doy
  era * 146097 + (doe : ℤ) - 719468

/-- Civil date (year, month, day) of a count of days since 1970-01-01. -/
def civilFromDays (z0 : ℤ) : ℤ × ℕ × ℕ :=
  let z : ℤ := z0 + 719468
  let era : ℤ := Int.fdiv z 146097
  let doe : ℕ := (z - era * 146097).toNat
  let yoe : ℕ := (doe - doe / 1460 + doe / 36524 - doe / 146096) / 365
  let y : ℤ := (yoe : ℤ) + era * 400
  let doy : ℕ := doe - (365 * yoe + yoe / 4 - yoe / 100)
  let mp : ℕ := (5 * doy + 2) / 153
  let d : ℕ := doy - (153 * mp + 2) / 5 + 1
  let m : ℕ := if mp < 10 then mp + 3 else mp - 9
  (if m ≤ 2 then y + 1 else y, m, d)

/-- Gregorian leap year. -/
def isLeap (y : ℤ) : Bool := (y % 4 = 0 && y % 100 ≠ 0) || y % 400 = 0

/-- Days in a month. -/
def daysInMonth (y : ℤ) (m : ℕ) : ℕ :=
  if m = 2 then (if isLeap y then 29 else 28)
  else if m = 4 ∨ m = 6 ∨ m = 9 ∨ m = 11 then 30 else 31

/-! ### `datetime` model -/

/-- Model of a Python `datetime`: civil fields plus an optional fixed UTC
offset in minutes (`none` = a naive datetime). -/
structure PyDateTime where
  year : ℤ
  month : ℕ
  day : ℕ
  hour : ℕ
  minute : ℕ
  second : ℕ
  usec : ℕ
  tzOffsetMin : Option ℤ
deriving DecidableEq

/-- Wall-clock microseconds since the epoch civil instant (ignores offset). -/
def PyDateTime.wallUs (dt : PyDateTime) : ℤ :=
  daysFromCivil dt.year dt.month dt.day * 86400000000
    + dt.hour * 3600000000 + dt.minute * 60000000 + dt.second * 1000000 + dt.usec

/-- `int(dt.timestamp() * 1000)`: epoch milliseconds, truncated toward zero.
`tz` is the process-local UTC offset in minutes, used when `dt` is naive
(DST is not modelled). -/
def PyDateTime.timestampMs (dt : PyDateTime) (tz : ℤ) : ℤ :=
  Int.tdiv (dt.wallUs - dt.tzOffsetMin.getD tz * 60000000) 1000

/-- Build a `PyDateTime` from wall-clock microseconds and an offset. -/
def ofWallUs (us : ℤ) (off : Option ℤ) : PyDateTime :=
  let day : ℤ := Int.fdiv us 86400000000
  let rem : ℕ := (us - day * 86400000000).toNat
  let c := civilFromDays day
  { year := c.1, month := c.2.1, day := c.2.2,
    hour := rem / 3600000000, minute := rem / 60000000 % 60,
    second := rem / 1000000 % 60, usec := rem % 1000000, tzOffsetMin := off }

/-- `datetime.fromtimestamp(ms / 1000.0)` with no tz argument: a naive
datetime carrying the process-local wall-clock time. -/
def fromtimestampLocal (ms : ℤ) (tz : ℤ) : PyDateTime :=
  ofWallUs (ms * 1000 + tz * 60000000) none

/-- `datetime.fromtimestamp(ms / 1000, tz=timezone.utc)`. -/
def fromtimestampUtc (ms : ℤ) : PyDateTime :=
  ofWallUs (ms * 1000) (some 0)

/-- Two-digit zero-padded decimal. -/
def pad2 (n : ℕ) : String := if n < 10 then "0" ++ toString n else toString n

/-- Four-digit zero-padded year. -/
def pad4 (y : ℤ) : String :=
  if y < 0 then toString y
  else if y < 10 then "000" ++ toString y
  else if y < 100 then "00" ++ toString y
  else if y < 1000 then "0" ++ toString y
  else toString y

/-- Six-digit zero-padded microseconds. -/
def pad6 (n : ℕ) : String :=
  if n < 10 then "00000" ++ toString n
  else if n < 100 then "0000" ++ toString n
  else if n < 1000 then "000" ++ toString n
  else if n < 10000 then "00" ++ toString n
  else if n < 100000 then "0" ++ toString n
  else toString n

/-- Render a UTC offset as `±HH:MM`. -/
def offsetStr (off : ℤ) : String :=
  (if off < 0 then "-" else "+") ++ pad2 (off.natAbs / 60) ++ ":" ++ pad2 (off.natAbs % 60)

/-- `dt.isoformat()`. -/
def PyDateTime.isoformat (dt : PyDateTime) : String :=
  pad4 dt.year ++ "-" ++ pad2 dt.month ++ "-" ++ pad2 dt.day ++ "T" ++
  pad2 dt.hour ++ ":" ++ pad2 dt.minute ++ ":" ++ pad2 dt.second ++
  (if dt.usec = 0 then "" else "." ++ pad6 dt.usec) ++
  (match dt.tzOffsetMin with
   | none => ""
   | some off => offsetStr off)

/-- The backfill script's `iso()` helper applied to an aware UTC instant of
`ms` epoch-milliseconds: convert to UTC, zero the microseconds, render, and
write the `+00:00` suffix as `Z` (backfill_paginated_raw.py lines 64-65). -/
def isoZ (ms : ℤ) : String :=
  let dt := fromtimestampUtc (Int.fdiv ms 1000 * 1000)
  ({ dt with tzOffsetMin := none } : PyDateTime).isoformat ++ "Z"

/-! ### `fromisoformat` -/

/-- Python `s.replace("Z", "+00:00")` on the character list. -/
def replaceZdata : List Char → List Char
  | [] => []
  | c :: cs =>
    if c = 'Z' then '+' :: '0' :: '0' :: ':' :: '0' :: '0' :: replaceZdata cs
    else c :: replaceZdata cs

/-- Python `s.replace("Z", "+00:00")`. -/
def replaceZ (s : String) : String := ⟨replaceZdata s.data⟩

/-- Parse a fixed-width all-digit field. -/
def parseDigitsLen (cs : List Char) (n : ℕ) : Option ℕ :=
  if cs.length = n ∧ cs.all Char.isDigit then parseNatDigits cs else none

/-- Split a trailing `±HH:MM` UTC offset off an ISO string, if present.
Returns the remaining characters and the offset in minutes. -/
def splitIsoOffset (cs : List Char) : List Char × Option ℤ :=
  let n := cs.length
  if 7 ≤ n then
    match cs.drop (n - 6) with
    | [sg, h1, h2, c, m1, m2] =>
      if (sg = '+' ∨ sg = '-') ∧ c = ':' ∧ h1.isDigit ∧ h2.isDigit ∧ m1.isDigit ∧ m2.isDigit then
        let hh := (h1.toNat - '0'.toNat) * 10 + (h2.toNat - '0'.toNat)
        let mm := (m1.toNat - '0'.toNat) * 10 + (m2.toNat - '0'.toNat)
        if hh < 24 ∧ mm < 60 then
          (cs.take (n - 6), some ((if sg = '-' then -1 else 1) * (hh * 60 + mm)))
        else (cs, none)
      else (cs, none)
    | _ => (cs, none)
  else (cs, none)

/-- Parse the `HH:MM[:SS[.fff|.ffffff]]` part of an ISO string. -/
def parseIsoTime (cs : List Char) : Option (ℕ × ℕ × ℕ × ℕ) :=
  match cs with
  | [h1, h2, c1, m1, m2] =>
    if c1 = ':' then
      match parseDigitsLen [h1, h2] 2, parseDigitsLen [m1, m2] 2 with
      | some h, some m => if h < 24 ∧ m < 60 then some (h, m, 0, 0) else none
      | _, _ => none
    else none
  | h1 :: h2 :: c1 :: m1 :: m2 :: c2 :: s1 :: s2 :: rest =>
    if c1 = ':' ∧ c2 = ':' then
      match parseDigitsLen [h1, h2] 2, parseDigitsLen [m1, m2] 2,
            parseDigitsLen [s1, s2] 2 with
      | some h, some m, some s =>
        if h < 24 ∧ m < 60 ∧ s < 60 then
          match rest with
          | [] => some (h, m, s, 0)
          | '.' :: frac =>
            if frac.length = 3 ∧ frac.all Char.isDigit then
              (parseNatDigits frac).map (fun f => (h, m, s, f * 1000))
            else if frac.length = 6 ∧ frac.all Char.isDigit then
              (parseNatDigits frac).map (fun f => (h, m, s, f))
            else none
          | _ => none
        else none
      | _, _, _ => none
    else none
  | _ => none

/-- Parse the offset-free part of an ISO string into civil fields
`(y, mo, dd, h, mi, s, us)`. -/
def parseIsoFields (main : List Char) : Option (ℤ × ℕ × ℕ × ℕ × ℕ × ℕ × ℕ) :=
  match main.take 10, main.drop 10 with
  | [y1, y2, y3, y4, d1, mo1, mo2, d2, dd1, dd2], rest =>
    if d1 = '-' ∧ d2 = '-' then
      match parseDigitsLen [y1, y2, y3, y4] 4, parseDigitsLen [mo1, mo2] 2,
            parseDigitsLen [dd1, dd2] 2 with
      | some y, some mo, some dd =>
        if 1 ≤ mo ∧ mo ≤ 12 ∧ 1 ≤ dd ∧ dd ≤ daysInMonth y mo ∧ 1 ≤ y then
          match rest with
          | [] => some ((y : ℤ), mo, dd, 0, 0, 0, 0)
          | _ :: timecs =>
            (parseIsoTime timecs).map (fun t =>
              ((y : ℤ), mo, dd, t.1, t.2.1, t.2.2.1, t.2.2.2))
        else none
      | _, _, _ => none
    else none
  | _, _ => none

/-- Model of `datetime.fromisoformat` (the pre-3.11 strict format):
`YYYY-MM-DD[<sep>HH:MM[:SS[.fff|.ffffff]]][±HH:MM]`, where `<sep>` is any
single character.  `none` models a raised `ValueError`. -/
def fromisoformat (s : String) : Option PyDateTime :=
  let p := splitIsoOffset s.data
  (parseIsoFields p.1).map (fun f =>
    ⟨f.1, f.2.1, f.2.2.1, f.2.2.2.1, f.2.2.2.2.1, f.2.2.2.2.2.1,
      f.2.2.2.2.2.2, p.2⟩)

/-- The backfill script's `parse_iso` (lines 60-61): parse and convert to a
UTC instant in epoch-milliseconds; `none` models the raised exception. -/
def parse_iso_ms (s : String) (tz : ℤ) : Option ℤ :=
  (fromisoformat (replaceZ s)).map (fun dt => dt.timestampMs tz)

/-! ### Association lists: Python dicts and conflict-keyed tables -/

variable {κ : Type} {α : Type} [DecidableEq κ]

/-- First-match lookup in an association list (a dict read, or a select on a
unique key). -/
def alistLookup (l : List (κ × α)) (k : κ) : Option α :=
  match l.find? (fun p => decide (p.1 = k)) with
  | some p => some p.2
  | none => none

/-- Key membership. -/
def alistHasKey (l : List (κ × α)) (k : κ) : Bool :=
  l.any (fun p => decide (p.1 = k))

/-- Python dict insertion / conflict-keyed upsert of one row: update the
existing key in place, else append. -/
def alistSet (l : List (κ × α)) (k : κ) (v : α) : List (κ × α) :=
  if alistHasKey l k then l.map (fun p => if p.1 = k then (k, v) else p)
  else l ++ [(k, v)]

/-- The backfill script's `chunk` generator (lines 68-70), fuel-indexed. -/
def pyChunksGo (size : ℕ) : ℕ → List α → List (List α)
  | 0, _ => []
  | _ + 1, [] => []
  | fuel + 1, l@(_ :: _) => l.take size :: pyChunksGo size fuel (l.drop size)

/-- `chunk(lst, size)`: split into sublists of `size` (last may be shorter). -/
def pyChunks (l : List α) (size : ℕ) : List (List α) :=
  pyChunksGo size l.length l

/-- `list(dict.fromkeys(names))`: de-duplicate keeping first occurrences. -/
def pyDedupFirst (l : List String) : List String :=
  l.foldl (fun acc n => if acc.contains n then acc else acc ++ [n]) []

/-- Insertion into a Python `set` tracked as a first-occurrence list. -/
def pySetAdd (l : List String) (n : String) : List String :=
  if l.contains n then l else l ++ [n]

/-! ### Raw records and canonical samples -/

/-- One raw record returned by the telemetry API (untrusted input).  The
field aliases consulted by the parsers are modelled as explicit fields; an
absent key is `none` / `.tnone` / `.pnone`. -/
structure RawRecord where
  name : Option String
  point : Option String
  point_name : Option String
  time : TimeVal
  timestamp : TimeVal
  ts : TimeVal
  value : PyVal
deriving DecidableEq

/-- A canonical sample produced by the backfill normalizer:
`{point_name, timestamp (epoch ms), value}`. -/
structure Sample where
  point_name : String
  timestamp : ℤ
  value : PyFloat
deriving DecidableEq

/-- A storage-shaped row `{point_id, ts, value}` (for both the transform
output of main.py and the prepared rows of the backfill writer). -/
structure TRow where
  point_id : ℤ
  ts : String
  value : PyFloat
deriving DecidableEq

/-- The alias chain `r.get("name") or r.get("point") or r.get("point_name")`
collapsed through the final `if not name` truthiness test. -/
def pickName (r : RawRecord) : Option String :=
  truthyStr (strOr r.name (strOr r.point r.point_name))

/-- The alias chain `r.get("time") or r.get("timestamp") or r.get("ts")`. -/
def pickTime (r : RawRecord) : TimeVal :=
  (r.time.pyOr r.timestamp).pyOr r.ts

/-- Timestamp resolution in `fetch_paginated_window` (line 191):
`int(t) if isinstance(t, int) else
 int(datetime.fromisoformat(str(t).replace("Z","+00:00")).timestamp() * 1000)`.
`str(None)` is `"None"`, which fails to parse. -/
def backfillParseTs (t : TimeVal) (tz : ℤ) : Option ℤ :=
  match t with
  | .tint n => some n
  | .tstr s => parse_iso_ms s tz
  | .tnone => parse_iso_ms "None" tz

/-- The literal strings rejected before numeric coercion (line 197). -/
def nonFiniteLiterals : List String := ["nan", "+inf", "-inf", "inf", "infinity"]

/-- `isinstance(val_raw, str) and val_raw.strip().lower() in (...)`. -/
def isNonFiniteLiteral (v : PyVal) : Bool :=
  match v with
  | .pstr s => nonFiniteLiterals.contains (pyToLower (pyStrip s))
  | _ => false

/-- The record-normalisation body of `fetch_paginated_window`
(backfill_paginated_raw.py lines 187-206): resolve aliases, parse the
timestamp, reject non-finite-literal strings, coerce the value, reject
non-finite floats, reject empty names; `none` means the record is skipped. -/
def backfillNormalize (r : RawRecord) (tz : ℤ) : Option Sample :=
  match backfillParseTs (pickTime r) tz with
  | none => none
  | some tsv =>
    if isNonFiniteLiteral r.value then none
    else
      match pyFloatOf r.value with
      | none => none
      | some v =>
        if v.isFinite then
          match pickName r with
          | some nm => some ⟨nm, tsv, v⟩
          | none => none
        else none

/-- Timestamp resolution in `transform_samples` (main.py lines 376-383):
an int is converted with `datetime.fromtimestamp(t / 1000.0)` — a NAIVE
local-time datetime — and a string with `fromisoformat` after the `Z`
replacement; `None` raises `AttributeError` on `.replace`. -/
def transformParseTs (t : TimeVal) (tz : ℤ) : Option PyDateTime :=
  match t with
  | .tint n => some (fromtimestampLocal n tz)
  | .tstr s => fromisoformat (replaceZ s)
  | .tnone => none

/-- One sample of `transform_samples` (main.py lines 361-399): resolve the
name, the cached point id (Python falsy test: id `0` is dropped too), the
timestamp and the value; the only value check is `v == v` (NaN). -/
def transformOne (cache : List (String × ℤ)) (tz : ℤ) (sample : RawRecord) :
    Option TRow :=
  match pickName sample with
  | none => none
  | some name =>
    match alistLookup cache name with
    | none => none
    | some pid =>
      if pid = 0 then none
      else
        match transformParseTs (pickTime sample) tz with
        | none => none
        | some dt =>
          match pyFloatOf sample.value with
          | none => none
          | some v =>
            if v.selfEq then some ⟨pid, dt.isoformat, v⟩ else none

/-- `transform_samples` (main.py lines 348-404). -/
def transform_samples (raw : List RawRecord) (cache : List (String × ℤ))
    (tz : ℤ) : List TRow :=
  raw.filterMap (transformOne cache tz)

/-- `deduplicate_samples` (main.py lines 406-419): a dict keyed by
`(point_id, ts)`, last write wins, values listed. -/
def deduplicate_samples (samples : List TRow) : List TRow :=
  (samples.foldl (fun seen s => alistSet seen (s.point_id, s.ts) s) []).map (·.2)

/-- The `(point_id, ts)`-keyed dedup of prepared rows inside the backfill
`upsert_timeseries` (lines 400-405) — the same dict pattern. -/
def dedupRows (rows : List TRow) : List TRow :=
  (rows.foldl (fun d r => alistSet d (r.point_id, r.ts) r) []).map (·.2)

/-! ### Storage model -/

/-- The `points` table restricted to one site: `(name, id)` rows with a
uniqueness constraint on the name, plus the id sequence. -/
structure PtsTable where
  rows : List (String × ℤ)
  nextId : ℤ
deriving DecidableEq

/-- The `timeseries` table: rows keyed by `(point_id, ts)` with a uniqueness
constraint on that pair. -/
abbrev TsStore : Type := List ((ℤ × String) × PyFloat)

/-- A DB batch insert of point rows: a uniqueness conflict on any row (an
existing name, or a duplicate inside the batch) raises and rolls the whole
statement back; `none` models the raised exception.  New rows receive
sequential ids. -/
def insertPointsOpt (t : PtsTable) (names : List String) : Option PtsTable :=
  if names.any (fun n => alistHasKey t.rows n) ∨ ¬ names.Nodup then none
  else
    some { rows := t.rows ++ names.enum.map (fun p => (p.2, t.nextId + p.1)),
           nextId := t.nextId + names.length }

/-- `select id,name where site = ... and name in batch` in table order. -/
def selectPoints (t : PtsTable) (batch : List String) : List (String × ℤ) :=
  t.rows.filter (fun p => batch.contains p.1)

/-- `sorted(set([n for n in names if n]))` — model the set + sort as a
first-occurrence dedup of the truthy names (no theorem here depends on the
sort order, only on membership and nodup). -/
def pySortedSet (names : List String) : List String :=
  pyDedupFirst (names.filter (fun n => n ≠ ""))

/-- The backfill `upsert_points` (lines 335-369): insert only new points in
batches of 50 (a conflicting batch is rolled back and swallowed), re-fetch
ids for the new names in batches of 100 into the cache, and return the
cached ids of the requested names.  Returns (table, cache, map_ids). -/
def upsert_points_backfill (t : PtsTable) (cache : List (String × ℤ))
    (names0 : List String) : PtsTable × List (String × ℤ) × List (String × ℤ) :=
  let names := pySortedSet names0
  if names = [] then (t, cache, [])
  else
    let new_names := names.filter (fun n => ¬ alistHasKey cache n)
    let t' :=
      if new_names = [] then t
      else (pyChunks new_names 50).foldl
        (fun acc batch => (insertPointsOpt acc batch).getD acc) t
    let cache' :=
      if new_names = [] then cache
      else (pyChunks new_names 100).foldl
        (fun c batch => (selectPoints t' batch).foldl
          (fun c2 p => alistSet c2 p.1 p.2) c) cache
    (t', cache', names.filterMap (fun n => (alistLookup cache' n).map (fun i => (n, i))))

/-- main.py `SupabaseClient.upsert_points` (lines 290-319): one insert of all
new names (any conflict rolls back and skips the cache refresh), then a
re-select of the new names merged into the cache. -/
def upsert_points_main (t : PtsTable) (cache : List (String × ℤ))
    (point_names : List String) : PtsTable × List (String × ℤ) :=
  let new_points := point_names.filter (fun n => ¬ alistHasKey cache n)
  if new_points = [] then (t, cache)
  else
    match insertPointsOpt t new_points with
    | none => (t, cache)
    | some t' =>
      (t', (selectPoints t' new_points).foldl (fun c p => alistSet c p.1 p.2) cache)

/-- Row preparation inside the backfill `upsert_timeseries` (lines 383-398):
resolve the id from `map_ids`, re-coerce and re-check finiteness of the
value (defense in depth), convert the millisecond timestamp to an ISO
string; unresolvable or non-finite samples are dropped. -/
def prepareRows (map_ids : List (String × ℤ)) (samples : List Sample) :
    List TRow :=
  samples.filterMap (fun s =>
    if s.value.isFinite then
      match alistLookup map_ids s.point_name with
      | none => none
      | some pid => some ⟨pid, isoZ s.timestamp, s.value⟩
    else none)

/-- Does a DB insert of `batch` into `st` hit the `(point_id, ts)`
uniqueness constraint (against existing rows or inside the batch)? -/
def tsInsertConflict (st : TsStore) (batch : List TRow) : Bool :=
  batch.any (fun r => alistHasKey st (r.point_id, r.ts)) ||
    ¬ (batch.map (fun r => (r.point_id, r.ts))).Nodup

/-- Conflict-aware upsert of a batch (`on_conflict="point_id,ts"`): one
`alistSet` per row. -/
def tsUpsertBatch (st : TsStore) (batch : List TRow) : TsStore :=
  batch.foldl (fun s r => alistSet s (r.point_id, r.ts) r.value) st

/-- One 50-row batch of the backfill write (lines 408-421): try a plain
insert; on a conflict, fall back to upserts in 10-row mini-batches
(modelled as always succeeding). -/
def tsApplyStore (st : TsStore) (batch : List TRow) : TsStore :=
  if tsInsertConflict st batch then
    (pyChunks batch 10).foldl (fun a mini => tsUpsertBatch a mini) st
  else st ++ batch.map (fun r => ((r.point_id, r.ts), r.value))

/-- The batched write of the backfill `upsert_timeseries` (lines 407-423):
apply 50-row batches, counting the rows applied. -/
def tsApplyBatches (st : TsStore) (rows : List TRow) : TsStore × ℕ :=
  (pyChunks rows 50).foldl
    (fun acc batch => (tsApplyStore acc.1 batch, acc.2 + batch.length))
    (st, 0)

/-- The backfill `upsert_timeseries` (lines 372-423): resolve ids via
`upsert_points`, prepare rows, dedup by `(point_id, ts)`, write batched.
Returns (points table, point cache, timeseries store, applied count). -/
def upsert_timeseries_backfill (t : PtsTable) (cache : List (String × ℤ))
    (st : TsStore) (samples : List Sample) :
    PtsTable × List (String × ℤ) × TsStore × ℕ :=
  if samples = [] then (t, cache, st, 0)
  else
    let names := pyDedupFirst
      (samples.filterMap (fun s => if s.point_name ≠ "" then some s.point_name else none))
    let r := upsert_points_backfill t cache names
    let unique_rows := dedupRows (prepareRows r.2.2 samples)
    let w := tsApplyBatches st unique_rows
    (r.1, r.2.1, w.1, w.2)

/-- main.py `SupabaseClient.upsert_timeseries` (lines 321-342): plain
batched upserts of 250 rows with `on_conflict="point_id,ts"`. -/
def upsert_timeseries_main (st : TsStore) (samples : List TRow) : TsStore × ℕ :=
  (pyChunks samples 250).foldl
    (fun acc batch => (tsUpsertBatch acc.1 batch, acc.2 + batch.length)) (st, 0)

/-! ### Ingest cursor and end-time resolution -/

/-- `get_ingest_cursor` (lines 426-434): read the `backfill_end` cell for the
site; a missing row, missing/empty value, or an exception yields `None`. -/
def get_ingest_cursor (cell : Option String) : Option String :=
  match cell with
  | some s => if s = "" then none else some s
  | none => none

/-- `get_site_earliest_ts` (lines 73-89): the earliest `ts` stored for the
site, parsed to epoch-milliseconds; any failure (no rows, empty field,
parse error) yields `None`.  `earliest` is the `ts` cell the range query
returns, `none` when the site has no rows. -/
def get_site_earliest_ts (earliest : Option String) (tz : ℤ) : Option ℤ :=
  match earliest with
  | none => none
  | some ts_iso =>
    if ts_iso = "" then none
    else
      match parse_iso_ms ts_iso tz with
      | some ms => some ms
      | none => none

/-- The end-time strategy of `main()` (lines 600-611) when `--end` is absent:
use the parsed ingest cursor when present; otherwise
`end_dt = datetime.fromtimestamp(earliest_ms / 1000, tz=utc) if earliest_ms else now`
— note the Python truthiness test on `earliest_ms`, under which an earliest
timestamp of exactly `0` (the epoch) falls back to `now`.
`cursorCell` is the stored `backfill_end` cell; `earliestCell` is the `ts`
cell of the earliest-row query; the result is the run's end instant in
epoch-milliseconds (`none` models the crash when the cursor fails to parse). -/
def resolveEndMs (cursorCell : Option String) (earliestCell : Option String)
    (now : ℤ) (tz : ℤ) : Option ℤ :=
  match get_ingest_cursor cursorCell with
  | some cur => parse_iso_ms cur tz
  | none =>
    match get_site_earliest_ts earliestCell tz with
    | some e => some (if e ≠ 0 then e else now)
    | none => some now

/-! ### The page fetcher: retry loop and pagination loop -/

/-- The parsed body of one paginated response, as consumed by the loop:
`data.get("point_samples") or []` and `data.get("next_cursor") or None`
(both `or`-defaults; an empty body parses to `{}`, i.e. both absent). -/
structure PageData where
  point_samples : Option (List RawRecord)
  next_cursor : Option String
deriving DecidableEq

/-- Outcome of one attempt of the fetch+parse block (lines 149-170):
success; a retryable failure (connection error, malformed/truncated body,
JSON decode error, or adapter-level retry exhaustion of a server-error
status — the except tuple of line 161); or a fatal failure (the
`RuntimeError` raised for a non-ok status on line 153, which is NOT in the
except tuple and propagates immediately). -/
inductive AttemptOutcome where
  | succ (d : PageData)
  | retryable (e : String)
  | fatal (e : String)
deriving DecidableEq

/-- Result of the 4-attempt loop: the parsed page and the page size left in
effect, or a raised error; both carry the page sizes actually requested and
the backoff sleeps performed. -/
inductive FetchStep where
  | ok (d : PageData) (ps : ℕ) (sizes : List ℕ) (sleeps : List ℚ)
  | err (e : String) (sizes : List ℕ) (sleeps : List ℚ)
deriving DecidableEq

/-- Page-size shrink on a retryable failure (lines 166-168):
`effective_page_size = max(10000, int(effective_page_size * 0.6))`, applied
only while the size is above the floor. -/
def shrinkPage (ps : ℕ) : ℕ := if 10000 < ps then max 10000 (6 * ps / 10) else ps

/-- The backoff sleep before the next attempt (line 169):
`0.5 * (attempt + 1) + random.uniform(0, 0.2)`; `u` is the drawn jitter. -/
def backoffSleep (attempt : ℕ) (u : ℚ) : ℚ := 1 / 2 * (attempt + 1) + u

/-- The `for attempt in range(4) ... else: raise last_err` retry loop
(lines 146-172), with `remaining` attempts left and `a` the next attempt
index (the loop is entered with `remaining = 4`, `a = 0`).  `attempts a ps`
is the outcome of attempt `a` issued with page size `ps`; `jit a` is the
jitter drawn after a failed attempt `a`. -/
def attemptLoopGo (attempts : ℕ → ℕ → AttemptOutcome) (jit : ℕ → ℚ) :
    ℕ → ℕ → ℕ → Option String → List ℕ → List ℚ → FetchStep
  | 0, _, _, le, sizes, sleeps => .err (le.getD "") sizes sleeps
  | remaining + 1, a, ps, _le, sizes, sleeps =>
    match attempts a ps with
    | .succ d => .ok d ps (sizes ++ [ps]) sleeps
    | .fatal e => .err e (sizes ++ [ps]) sleeps
    | .retryable e =>
      attemptLoopGo attempts jit remaining (a + 1) (shrinkPage ps) (some e)
        (sizes ++ [ps]) (sleeps ++ [backoffSleep a (jit a)])

/-- The initial effective page size (line 124):
`max(10000, min(int(page_size), 50000))`. -/
def initPageSize (page_size : ℤ) : ℕ := (max 10000 (min page_size 50000)).toNat

/-- Why the pagination loop of `fetch_paginated_window` ended. -/
inductive ExitReason where
  | budget
  | noCursor
  | ceiling
deriving DecidableEq

/-- Result of the pagination loop: the accumulated samples and the exit
condition that ended the loop, or a propagated exception. -/
inductive FetchResult where
  | done (out : List Sample) (reason : ExitReason)
  | raised (e : String)
  | fuelOut
deriving DecidableEq

/-- The pagination loop of `fetch_paginated_window` (lines 126-213).
Oracles: `pageAttempts i a ps` is attempt `a` of iteration `i` at page size
`ps`; `jit i a` the jitter; `elapsedO i` the whole seconds elapsed at the
top of iteration `i` (`int(time.time() - started)`).  State: iteration,
pagination cursor, page counter, effective page size (it persists across
pages), accumulated samples. -/
def fetch_window_go (pageAttempts : ℕ → ℕ → ℕ → AttemptOutcome)
    (jit : ℕ → ℕ → ℚ) (elapsedO : ℕ → ℕ) (timeout : ℤ) (tz : ℤ) :
    ℕ → ℕ → Option String → ℕ → ℕ → List Sample → FetchResult
  | 0, _, _, _, _, _ => .fuelOut
  | fuel + 1, i, _cursor, pages, ps, out =>
    if max 1 (timeout - (elapsedO i : ℤ)) ≤ 2 then .done out .budget
    else
      match attemptLoopGo (pageAttempts i) (jit i) 4 0 ps none [] [] with
      | .err e _ _ => .raised e
      | .ok d ps' _ _ =>
        let rows := d.point_samples.getD []
        if rows = [] then
          match truthyStr d.next_cursor with
          | none => .done out .noCursor
          | some nc =>
            if 200 < pages + 1 then .done out .ceiling
            else fetch_window_go pageAttempts jit elapsedO timeout tz fuel
              (i + 1) (some nc) (pages + 1) ps' out
        else
          let out' := out ++ rows.filterMap (fun r => backfillNormalize r tz)
          match truthyStr d.next_cursor with
          | none => .done out' .noCursor
          | some nc =>
            if 200 < pages + 1 then .done out' .ceiling
            else fetch_window_go pageAttempts jit elapsedO timeout tz fuel
              (i + 1) (some nc) (pages + 1) ps' out'

/-- `fetch_paginated_window` (lines 92-213) for one window.  The fuel 300
strictly exceeds the 201 iterations the page ceiling admits, so it is never
exhausted (proved below). -/
def fetch_paginated_window_model (pageAttempts : ℕ → ℕ → ℕ → AttemptOutcome)
    (jit : ℕ → ℕ → ℚ) (elapsedO : ℕ → ℕ) (timeout : ℤ) (tz : ℤ)
    (page_size : ℤ) : FetchResult :=
  fetch_window_go pageAttempts jit elapsedO timeout tz 300 0 none 0
    (initPageSize page_size) []

/-! ### main.py fetch and sync -/

/-- The `point_samples` field of a parsed response body:
`data.get("point_samples", [])` (a genuine default, not an `or`).  `absent`
means the key is missing (the `[]` default applies); `notList` means the
key holds `null` or another value without `len()` — the subsequent
`len(samples)` raises `TypeError`, caught by the generic handler. -/
inductive SamplesField where
  | absent
  | list (rows : List RawRecord)
  | notList
deriving DecidableEq

/-- The parse outcome of a response body: JSON decode failure
(`response.json()` raises), a non-object document (`data.get` raises
`AttributeError`), or an object with the two consulted fields. -/
inductive BodyParse where
  | parseFail
  | nonObject
  | object (point_samples : SamplesField) (next_cursor : Option String)
deriving DecidableEq

/-- The observable outcome of the HTTP GET issued by
`fetch_timeseries_page` (after the adapter-level retries): a raised
request/connection exception, or a response with a status and a body. -/
inductive HttpResult where
  | netErr (msg : String)
  | resp (status : ℕ) (body : BodyParse)
deriving DecidableEq

/-- `ACEAPIClient.fetch_timeseries_page` (main.py lines 173-232): total with
errors as values.  Every failure mode — request exception, HTTP error
status (`raise_for_status`, status ≥ 400), JSON decode failure,
`AttributeError`/`TypeError` during extraction — is caught and returned as
`([], None, error_message)`; success returns `(samples, next_cursor, None)`. -/
def fetch_timeseries_page (r : HttpResult) :
    List RawRecord × Option String × Option String :=
  match r with
  | .netErr m => ([], none, some ("ACE API request error: " ++ m))
  | .resp status body =>
    if 400 ≤ status then
      ([], none, some ("ACE API HTTP error (" ++ toString status ++ ")"))
    else
      match body with
      | .parseFail => ([], none, some "Unexpected error fetching data: JSONDecodeError")
      | .nonObject => ([], none, some "Unexpected error fetching data: AttributeError")
      | .object ps next =>
        match ps with
        | .absent => ([], next, none)
        | .list rows => (rows, next, none)
        | .notList => ([], none, some "Unexpected error fetching data: TypeError")

/-- The running state of `sync_site`. -/
structure SyncState where
  pts : PtsTable
  cache : List (String × ℤ)
  store : TsStore
  totalSamples : ℕ
  totalInserted : ℕ
  uniquePoints : List String
  pages : ℕ
  cursor : Option String
deriving DecidableEq

/-- The page loop of `sync_site` (main.py lines 450-503).  `oracle i` is the
HTTP outcome of the i-th `fetch_timeseries_page` call; the fuel equals
`max_pages - pages_fetched`.  Returns the final state and the error of the
page fetch that ended the loop, if any. -/
def sync_site_go (oracle : ℕ → HttpResult) (tz : ℤ) :
    ℕ → ℕ → SyncState → SyncState × Option String
  | 0, _, st => (st, none)
  | fuel + 1, i, st =>
    match fetch_timeseries_page (oracle i) with
    | (raw, next, err?) =>
      match err? with
      | some e => (st, some e)
      | none =>
        if raw = [] then
          match truthyStr next with
          | none => (st, none)
          | some nc => sync_site_go oracle tz fuel (i + 1)
              { st with cursor := some nc, pages := st.pages + 1 }
        else
          let names := raw.foldl (fun acc s =>
            match truthyStr (strOr s.name s.point) with
            | some n => pySetAdd acc n
            | none => acc) st.uniquePoints
          let pc := upsert_points_main st.pts st.cache names
          let transformed := transform_samples raw pc.2 tz
          let uniq := deduplicate_samples transformed
          let w := if uniq = [] then (st.store, 0)
                   else upsert_timeseries_main st.store uniq
          let st' : SyncState :=
            { pts := pc.1, cache := pc.2, store := w.1,
              totalSamples := st.totalSamples + raw.length,
              totalInserted := st.totalInserted + w.2,
              uniquePoints := names,
              pages := st.pages + 1, cursor := truthyStr next }
          match truthyStr next with
          | none => (st', none)
          | some _ => sync_site_go oracle tz fuel (i + 1) st'

/-- `sync_site` (main.py lines 425-511): load the point cache for the site
(the full points table) and run the page loop. -/
def sync_site_model (oracle : ℕ → HttpResult) (tz : ℤ) (pts : PtsTable)
    (store : TsStore) (maxPages : ℕ) : SyncState × Option String :=
  sync_site_go oracle tz maxPages 0 ⟨pts, pts.rows, store, 0, 0, [], 0, none⟩

/-! ### The backfill driver -/

/-- The mutable storage-side state a backfill run drives. -/
structure BackfillState where
  pts : PtsTable
  cache : List (String × ℤ)
  store : TsStore
deriving DecidableEq

/-- `get_point_names_from_supabase` (lines 216-229): names of the site's
points, stripped, truthy-filtered, first-occurrence-deduplicated, capped. -/
def get_point_names (t : PtsTable) (limit : ℕ) : List String :=
  (pyDedupFirst ((t.rows.map (fun p => pyStrip p.1)).filter (fun n => n ≠ ""))).take limit

/-- One chunk fetch as performed inside a window (lines 498-512): with
`USE_ACE_CLI`, two CLI attempts (the CLI wrapper returns `[]` on any error)
and then an HTTP fallback; otherwise one direct HTTP fetch.  `cliO k` is
the k-th CLI invocation's result; `httpO` is the `fetch_paginated_window`
call, whose exception propagates.  (The differing page sizes of the
fallback calls are absorbed into the oracles.) -/
def chunkFetch (useCli : Bool) (cliO : ℕ → List Sample)
    (httpO : Except String (List Sample)) : Except String (List Sample) :=
  if useCli then
    match cliO 0 with
    | [] =>
      match cliO 1 with
      | [] => httpO
      | s2 => .ok s2
    | s1 => .ok s1
  else httpO

/-- The body of one window of `run_backfill` (lines 484-539): fetch the
cached point names; if any, fetch per 300-name chunk, else one site-wide
fetch; write every non-empty result through `upsert_timeseries`.  A raised
fetch error propagates (there is no try/except around these calls).
`fetchO ws we k` / `cliO ws we k j` address the fetches of the window
`[ws, we)` and name-chunk `k`. -/
def processWindow (useCli : Bool) (cliO : ℤ → ℤ → ℕ → ℕ → List Sample)
    (fetchO : ℤ → ℤ → ℕ → Except String (List Sample))
    (wstart wend : ℤ) (st : BackfillState) :
    Except String (BackfillState × ℕ) :=
  let point_names := get_point_names st.pts 100000
  if point_names = [] then
    match chunkFetch useCli (cliO wstart wend 0) (fetchO wstart wend 0) with
    | .error e => .error e
    | .ok samples =>
      if samples = [] then .ok (st, 0)
      else
        let u := upsert_timeseries_backfill st.pts st.cache st.store samples
        .ok (⟨u.1, u.2.1, u.2.2.1⟩, u.2.2.2)
  else
    (pyChunks point_names 300).enum.foldlM (fun acc chunkp =>
      match chunkFetch useCli (cliO wstart wend chunkp.1) (fetchO wstart wend chunkp.1) with
      | .error e => .error e
      | .ok samples =>
        if samples = [] then .ok acc
        else
          let u := upsert_timeseries_backfill acc.1.pts acc.1.cache acc.1.store samples
          .ok (⟨u.1, u.2.1, u.2.2.1⟩, acc.2 + u.2.2.2)) (st, 0)

/-- The window loop of `run_backfill` (lines 483-548): while
`processed < max_chunks and window_end > start_dt`, process the window
`[max(start, window_end - delta), window_end)` and step backward.  The fuel
is `max_chunks - processed`.  Returns the final state, total inserted, the
final `window_end`, and the list of windows processed (most recent first). -/
def run_backfill_go (useCli : Bool) (cliO : ℤ → ℤ → ℕ → ℕ → List Sample)
    (fetchO : ℤ → ℤ → ℕ → Except String (List Sample)) (start delta : ℤ) :
    ℕ → ℤ → BackfillState → ℕ →
    Except String (BackfillState × ℕ × ℤ × List (ℤ × ℤ))
  | 0, wend, st, inserted => .ok (st, inserted, wend, [])
  | fuel + 1, wend, st, inserted =>
    if start < wend then
      let wstart := max start (wend - delta)
      match processWindow useCli cliO fetchO wstart wend st with
      | .error e => .error e
      | .ok r =>
        match run_backfill_go useCli cliO fetchO start delta fuel wstart r.1
            (inserted + r.2) with
        | .error e => .error e
        | .ok rec => .ok (rec.1, rec.2.1, rec.2.2.1, (wstart, wend) :: rec.2.2.2)
    else .ok (st, inserted, wend, [])

/-- `run_backfill` (lines 444-572): pre-load the point cache (the site's
full points table), walk the windows backward from `endT`, and on normal
completion persist the final `window_end` as the new ingest cursor when
`updateState` is set.  A window fetch that raises aborts the whole run.
Returns (processed, inserted, final state, cursor cell, windows). -/
def run_backfill_model (useCli : Bool) (cliO : ℤ → ℤ → ℕ → ℕ → List Sample)
    (fetchO : ℤ → ℤ → ℕ → Except String (List Sample))
    (start endT delta : ℤ) (maxChunks : ℕ) (updateState : Bool)
    (pts : PtsTable) (store : TsStore) (cursorCell : Option String) :
    Except String (ℕ × ℕ × BackfillState × Option String × List (ℤ × ℤ)) :=
  match run_backfill_go useCli cliO fetchO start delta maxChunks endT
      ⟨pts, pts.rows, store⟩ 0 with
  | .error e => .error e
  | .ok r =>
    let cell' := if updateState then some (isoZ r.2.2.1) else cursorCell
    .ok (r.2.2.2.length, r.2.1, r.1, cell', r.2.2.2)

/-- The pure window-walk skeleton of `run_backfill_go` (its loop variables
do not depend on fetch results). -/
def walkWindows (start delta : ℤ) : ℕ → ℤ → List (ℤ × ℤ)
  | 0, _ => []
  | fuel + 1, wend =>
    if start < wend then
      (max start (wend - delta), wend) ::
        walkWindows start delta fuel (max start (wend - delta))
    else []

/-! ### Verification-layer definitions -/

variable {β : Type}

/-- The last element of `l` whose key is `k`. -/
def lastOcc (key : β → κ) (l : List β) (k : κ) : Option β :=
  l.foldl (fun acc r => if key r = k then some r else acc) none

/-- Extensional equality of keyed stores under first-match lookup: the two
tables hold the same row set as seen through the conflict key. -/
def LookupEq (s₁ s₂ : List (κ × α)) : Prop :=
  ∀ k, alistLookup s₁ k = alistLookup s₂ k

/-- The in-run point cache agrees with the points table on every name (the
engine invariant established by `load_all_point_ids`). -/
def PtsAgree (cache : List (String × ℤ)) (t : PtsTable) : Prop :=
  ∀ n, alistLookup cache n = alistLookup t.rows n

/-- The conflict key of a storage row. -/
def rowKey (r : TRow) : ℤ × String := (r.point_id, r.ts)

/-- The page sizes requested by a retry-loop run. -/
def FetchStep.sizes : FetchStep → List ℕ
  | .ok _ _ s _ => s
  | .err _ s _ => s

/-- The backoff sleeps performed by a retry-loop run. -/
def FetchStep.sleeps : FetchStep → List ℚ
  | .ok _ _ _ s => s
  | .err _ _ s => s

/-! ## Helper lemmas: association lists -/

theorem alistLookup_cons (p : κ × α) (l : List (κ × α)) (k : κ) :
    alistLookup (p :: l) k = if p.1 = k then some p.2 else alistLookup l k := by
  by_cases h : p.1 = k <;> simp [alistLookup, List.find?_cons, h]

theorem alistLookup_append (l₁ l₂ : List (κ × α)) (k : κ) :
    alistLookup (l₁ ++ l₂) k =
      match alistLookup l₁ k with
      | some v => some v
      | none => alistLookup l₂ k := by
  induction l₁ with
  | nil => rfl
  | cons p l ih =>
    rw [List.cons_append, alistLookup_cons, alistLookup_cons]
    by_cases h : p.1 = k <;> simp [h, ih]

theorem alistHasKey_eq_isSome (l : List (κ × α)) (k : κ) :
    alistHasKey l k = (alistLookup l k).isSome := by
  induction l with
  | nil => rfl
  | cons p l ih =>
    rw [alistLookup_cons]
    by_cases h : p.1 = k
    · simp [alistHasKey, h]
    · rw [if_neg h]
      have hh : alistHasKey (p :: l) k = alistHasKey l k := by
        simp [alistHasKey, h]
      rw [hh, ih]

theorem lookup_map_set_self (l : List (κ × α)) (k : κ) (v : α)
    (h : alistHasKey l k = true) :
    alistLookup (l.map (fun p => if p.1 = k then (k, v) else p)) k = some v := by
  induction l with
  | nil => simp [alistHasKey] at h
  | cons p l ih =>
    by_cases hp : p.1 = k
    · simp [hp, alistLookup_cons]
    · have h' : alistHasKey l k = true := by
        simpa [alistHasKey, hp] using h
      simp only [List.map_cons, if_neg hp]
      rw [alistLookup_cons, if_neg hp]
      exact ih h'

theorem lookup_map_set_ne (l : List (κ × α)) (k k' : κ) (v : α) (h : k' ≠ k) :
    alistLookup (l.map (fun p => if p.1 = k then (k, v) else p)) k' =
      alistLookup l k' := by
  induction l with
  | nil => rfl
  | cons p l ih =>
    by_cases hp : p.1 = k
    · simp only [List.map_cons, if_pos hp]
      rw [alistLookup_cons, alistLookup_cons]
      have : ¬ (k = k') := fun hc => h hc.symm
      rw [if_neg this, if_neg (by rw [hp]; exact this), ih]
    · simp only [List.map_cons, if_neg hp]
      rw [alistLookup_cons, alistLookup_cons, ih]

theorem alistLookup_set_self (l : List (κ × α)) (k : κ) (v : α) :
    alistLookup (alistSet l k v) k = some v := by
  unfold alistSet
  split
  · exact lookup_map_set_self l k v (by assumption)
  · rw [alistLookup_append]
    have hk : alistLookup l k = none := by
      rename_i h
      have h2 := alistHasKey_eq_isSome l k
      cases hl : alistLookup l k
      · rfl
      · exact absurd (by rw [h2, hl]; rfl) h
    rw [hk]
    simp [alistLookup_cons]

theorem alistLookup_set_ne (l : List (κ × α)) (k k' : κ) (v : α) (h : k' ≠ k) :
    alistLookup (alistSet l k v) k' = alistLookup l k' := by
  unfold alistSet
  split
  · exact lookup_map_set_ne l k k' v h
  · rw [alistLookup_append]
    cases hl : alistLookup l k'
    · simp only [alistLookup_cons]
      rw [if_neg (fun hc : k = k' => h hc.symm)]
      rfl
    · rfl

theorem lastOcc_foldl_acc (key : β → κ) (k : κ) (l : List β) (a : Option β) :
    l.foldl (fun acc r => if key r = k then some r else acc) a =
      match l.foldl (fun acc r => if key r = k then some r else acc) none with
      | some x => some x
      | none => a := by
  induction l generalizing a with
  | nil => rfl
  | cons x l ih =>
    rw [List.foldl_cons, List.foldl_cons, ih,
      ih (if key x = k then some x else none)]
    by_cases h : key x = k
    · simp only [if_pos h]
      cases l.foldl (fun acc r => if key r = k then some r else acc) none <;> rfl
    · simp only [if_neg h]
      cases l.foldl (fun acc r => if key r = k then some r else acc) none <;> rfl

theorem lastOcc_cons (key : β → κ) (r : β) (l : List β) (k : κ) :
    lastOcc key (r :: l) k =
      match lastOcc key l k with
      | some x => some x
      | none => if key r = k then some r else none := by
  unfold lastOcc
  rw [List.foldl_cons, lastOcc_foldl_acc]

/-- Lookup after a left fold of dict insertions: the last occurrence in the
inserted list wins, else the original binding survives. -/
theorem foldl_set_lookup (key : β → κ) (val : β → α) (l : List β)
    (st : List (κ × α)) (k : κ) :
    alistLookup (l.foldl (fun s r => alistSet s (key r) (val r)) st) k =
      match lastOcc key l k with
      | some r => some (val r)
      | none => alistLookup st k := by
  induction l generalizing st with
  | nil => rfl
  | cons r rest ih =>
    rw [List.foldl_cons, ih, lastOcc_cons]
    cases h : lastOcc key rest k
    · by_cases hk : key r = k
      · simp only [if_pos hk]
        rw [← hk, alistLookup_set_self]
      · simp only [if_neg hk]
        rw [alistLookup_set_ne _ _ _ _ (fun hc => hk hc.symm)]
    · rfl

theorem map_fst_set_map (d : List (κ × α)) (k : κ) (v : α) :
    (d.map (fun p => if p.1 = k then (k, v) else p)).map Prod.fst =
      d.map Prod.fst := by
  induction d with
  | nil => rfl
  | cons p l ih =>
    by_cases h : p.1 = k
    · simp [h, ih]
    · simp [h, ih]

theorem not_hasKey_not_mem_keys (l : List (κ × α)) (k : κ)
    (h : ¬ alistHasKey l k = true) : k ∉ l.map Prod.fst := by
  intro hmem
  apply h
  rcases List.mem_map.mp hmem with ⟨p, hp, hk⟩
  exact List.any_eq_true.mpr ⟨p, hp, by simp [hk]⟩

theorem alistSet_keys_nodup (d : List (κ × α)) (k : κ) (v : α)
    (h : (d.map Prod.fst).Nodup) : ((alistSet d k v).map Prod.fst).Nodup := by
  unfold alistSet
  split
  · rw [map_fst_set_map]; exact h
  · rw [List.map_append]
    simp only [List.map_cons, List.map_nil]
    refine List.Nodup.append h (List.nodup_singleton k) ?_
    intro a ha hb
    rw [List.mem_singleton] at hb
    rw [hb] at ha
    exact not_hasKey_not_mem_keys d k (by assumption) ha

theorem alistSet_consistent (key : β → κ) (d : List (κ × β)) (s : β)
    (h : ∀ p ∈ d, key p.2 = p.1) :
    ∀ p ∈ alistSet d (key s) s, key p.2 = p.1 := by
  unfold alistSet
  split
  · intro p hp
    rcases List.mem_map.mp hp with ⟨q, hq, hpq⟩
    by_cases hqk : q.1 = key s
    · rw [if_pos hqk] at hpq
      subst hpq; rfl
    · rw [if_neg hqk] at hpq
      subst hpq; exact h q hq
  · intro p hp
    rcases List.mem_append.mp hp with hp | hp
    · exact h p hp
    · rw [List.mem_singleton] at hp
      subst hp; rfl

theorem dedupFold_consistent (key : β → κ) (l : List β) (acc : List (κ × β))
    (hacc : ∀ p ∈ acc, key p.2 = p.1) :
    ∀ p ∈ l.foldl (fun s r => alistSet s (key r) r) acc, key p.2 = p.1 := by
  induction l generalizing acc with
  | nil => exact hacc
  | cons r rest ih =>
    rw [List.foldl_cons]
    exact ih _ (alistSet_consistent key acc r hacc)

theorem dedupFold_keys_nodup (key : β → κ) (l : List β) (acc : List (κ × β))
    (hacc : (acc.map Prod.fst).Nodup) :
    ((l.foldl (fun s r => alistSet s (key r) r) acc).map Prod.fst).Nodup := by
  induction l generalizing acc with
  | nil => exact hacc
  | cons r rest ih =>
    rw [List.foldl_cons]
    exact ih _ (alistSet_keys_nodup acc (key r) r hacc)

theorem filter_map_snd_empty (key : β → κ) (d : List (κ × β)) (k : κ)
    (hc : ∀ p ∈ d, key p.2 = p.1) (hk : k ∉ d.map Prod.fst) :
    (d.map Prod.snd).filter (fun r => decide (key r = k)) = [] := by
  induction d with
  | nil => rfl
  | cons p l ih =>
    have hp1 : key p.2 = p.1 := hc p (by simp)
    have hne : p.1 ≠ k := by
      intro hcon
      exact hk (by simp [hcon])
    simp only [List.map_cons, List.filter_cons]
    rw [if_neg (by simp [hp1, hne])]
    exact ih (fun q hq => hc q (by simp [hq])) (fun hmem => hk (by simp [hmem]))

theorem filter_map_snd_lookup (key : β → κ) (d : List (κ × β)) (k : κ)
    (hc : ∀ p ∈ d, key p.2 = p.1) (hn : (d.map Prod.fst).Nodup) :
    (d.map Prod.snd).filter (fun r => decide (key r = k)) =
      (alistLookup d k).toList := by
  induction d with
  | nil => rfl
  | cons p l ih =>
    have hp1 : key p.2 = p.1 := hc p (by simp)
    have hcl : ∀ q ∈ l, key q.2 = q.1 := fun q hq => hc q (by simp [hq])
    rw [List.map_cons] at hn
    have hnl : (l.map Prod.fst).Nodup := (List.nodup_cons.mp hn).2
    rw [alistLookup_cons]
    by_cases h : p.1 = k
    · rw [if_pos h]
      simp only [List.map_cons, List.filter_cons]
      rw [if_pos (by simp [hp1, h])]
      have hknotin : k ∉ l.map Prod.fst := by
        have h1 := (List.nodup_cons.mp hn).1
        rwa [h] at h1
      rw [filter_map_snd_empty key l k hcl hknotin]
      rfl
    · rw [if_neg h]
      simp only [List.map_cons, List.filter_cons]
      rw [if_neg (by simp [hp1, h])]
      exact ih hcl hnl

/-! ## Helper lemmas: chunking -/

theorem pyChunksGo_flatten (size : ℕ) (hs : 0 < size) :
    ∀ (fuel : ℕ) (l : List β), l.length ≤ fuel →
      (pyChunksGo size fuel l).flatten = l := by
  intro fuel
  induction fuel with
  | zero =>
    intro l hl
    rw [Nat.le_zero, List.length_eq_zero] at hl
    subst hl; rfl
  | succ fuel ih =>
    intro l hl
    cases l with
    | nil => rfl
    | cons x xs =>
      show ((x :: xs).take size :: pyChunksGo size fuel ((x :: xs).drop size)).flatten
        = x :: xs
      rw [List.flatten_cons]
      have hdrop : ((x :: xs).drop size).length ≤ fuel := by
        rw [List.length_drop]
        simp only [List.length_cons] at hl ⊢
        omega
      rw [ih _ hdrop, List.take_append_drop]

theorem pyChunks_flatten (l : List β) (size : ℕ) (hs : 0 < size) :
    (pyChunks l size).flatten = l :=
  pyChunksGo_flatten size hs l.length l le_rfl

theorem pyChunksGo_sublist (size : ℕ) :
    ∀ (fuel : ℕ) (l c : List β), c ∈ pyChunksGo size fuel l → c.Sublist l := by
  intro fuel
  induction fuel with
  | zero => intro l c hc; cases hc
  | succ fuel ih =>
    intro l c hc
    cases l with
    | nil => cases hc
    | cons x xs =>
      rcases List.mem_cons.mp hc with h | h
      · subst h; exact List.take_sublist _ _
      · exact (ih _ c h).trans (List.drop_sublist _ _)

theorem pyChunks_sublist (l c : List β) (size : ℕ) (h : c ∈ pyChunks l size) :
    c.Sublist l :=
  pyChunksGo_sublist size l.length l c h

theorem foldl_chunklist {γ : Type} (f : γ → β → γ) (L : List (List β)) :
    ∀ a : γ, L.foldl (fun st c => c.foldl f st) a = L.flatten.foldl f a := by
  induction L with
  | nil => intro a; rfl
  | cons c cs ih =>
    intro a
    rw [List.flatten_cons, List.foldl_cons, List.foldl_append]
    exact ih _

theorem foldl_chunks {γ : Type} (f : γ → β → γ) (l : List β) (size : ℕ)
    (hs : 0 < size) (a : γ) :
    (pyChunks l size).foldl (fun st c => c.foldl f st) a = l.foldl f a := by
  rw [foldl_chunklist, pyChunks_flatten l size hs]

theorem map_eq_of_forall {γ δ : Type} (f g : γ → δ) (l : List γ)
    (h : ∀ a ∈ l, f a = g a) : l.map f = l.map g := by
  induction l with
  | nil => rfl
  | cons x xs ih =>
    rw [List.map_cons, List.map_cons, h x (by simp),
      ih (fun a ha => h a (by simp [ha]))]

/-- The Python-dict dedup pattern, generically: the output filtered at any
key is exactly the last occurrence of that key in the input. -/
theorem dedupGeneric_filter (key : β → κ) (l : List β) (k : κ) :
    ((l.foldl (fun s r => alistSet s (key r) r) []).map Prod.snd).filter
      (fun r => decide (key r = k)) = (lastOcc key l k).toList := by
  rw [filter_map_snd_lookup key _ k
    (dedupFold_consistent key l [] (by intro p hp; cases hp))
    (dedupFold_keys_nodup key l [] List.nodup_nil)]
  have hl := foldl_set_lookup key id l [] k
  simp only [id] at hl
  rw [hl]
  cases lastOcc key l k <;> rfl

/-- The Python-dict dedup pattern yields pairwise-distinct keys. -/
theorem dedupGeneric_keys_nodup (key : β → κ) (l : List β) :
    (((l.foldl (fun s r => alistSet s (key r) r) []).map Prod.snd).map key).Nodup := by
  have hc := dedupFold_consistent key l [] (by intro p hp; cases hp)
  have hn := dedupFold_keys_nodup key l [] List.nodup_nil
  have he : ((l.foldl (fun s r => alistSet s (key r) r) []).map Prod.snd).map key
      = (l.foldl (fun s r => alistSet s (key r) r) []).map Prod.fst := by
    rw [List.map_map]
    exact map_eq_of_forall _ _ _ (fun p hp => hc p hp)
  rw [he]
  exact hn

/-! ## Helper lemmas: the retry loop -/

theorem shrinkPage_bounds (ps : ℕ) (h : 10000 ≤ ps ∧ ps ≤ 50000) :
    10000 ≤ shrinkPage ps ∧ shrinkPage ps ≤ 50000 := by
  unfold shrinkPage
  split
  · constructor
    · exact le_max_left _ _
    · have h6 : 6 * ps / 10 ≤ 6 * ps / 6 := Nat.div_le_div_left (by omega) (by omega)
      have h66 : 6 * ps / 6 = ps := Nat.mul_div_cancel_left ps (by omega)
      omega
  · exact h

theorem attemptLoop_sizes_aux (attempts : ℕ → ℕ → AttemptOutcome) (jit : ℕ → ℚ) :
    ∀ (remaining a ps : ℕ) (le : Option String) (sizes : List ℕ)
      (sleeps : List ℚ),
      (10000 ≤ ps ∧ ps ≤ 50000) →
      (∀ s ∈ sizes, 10000 ≤ s ∧ s ≤ 50000) →
      ∀ s ∈ (attemptLoopGo attempts jit remaining a ps le sizes sleeps).sizes,
        10000 ≤ s ∧ s ≤ 50000 := by
  intro remaining
  induction remaining with
  | zero =>
    intro a ps le sizes sleeps _ hsizes
    exact hsizes
  | succ remaining ih =>
    intro a ps le sizes sleeps hps hsizes
    have happ : ∀ s ∈ sizes ++ [ps], 10000 ≤ s ∧ s ≤ 50000 := by
      intro s hs
      rcases List.mem_append.mp hs with hs | hs
      · exact hsizes s hs
      · rw [List.mem_singleton] at hs
        subst hs; exact hps
    rw [attemptLoopGo]
    cases hatt : attempts a ps with
    | succ d => exact happ
    | fatal e => exact happ
    | retryable e =>
      exact ih (a + 1) (shrinkPage ps) (some e) (sizes ++ [ps])
        (sleeps ++ [backoffSleep a (jit a)]) (shrinkPage_bounds ps hps) happ

theorem initPageSize_bounds (page_size : ℤ) :
    10000 ≤ initPageSize page_size ∧ initPageSize page_size ≤ 50000 := by
  unfold initPageSize
  omega

/-! ## Helper lemmas: the window walk -/

theorem foldlM_except_ok {γ δ ε : Type} (f : γ → δ → Except ε γ)
    (hstep : ∀ acc x, ∃ r, f acc x = .ok r) :
    ∀ (l : List δ) (acc : γ), ∃ r, l.foldlM f acc = .ok r := by
  intro l
  induction l with
  | nil => intro acc; exact ⟨acc, rfl⟩
  | cons x xs ih =>
    intro acc
    rcases hstep acc x with ⟨r, hr⟩
    rcases ih r with ⟨r2, hr2⟩
    refine ⟨r2, ?_⟩
    rw [List.foldlM_cons, hr]
    exact hr2

theorem chunkFetch_isOk (useCli : Bool) (cliO : ℕ → List Sample)
    (httpO : Except String (List Sample)) (hok : ∃ v, httpO = .ok v) :
    ∃ v, chunkFetch useCli cliO httpO = .ok v := by
  unfold chunkFetch
  rcases hok with ⟨v, hv⟩
  cases useCli
  · exact ⟨v, hv⟩
  · cases h0 : cliO 0 with
    | nil =>
      cases h1 : cliO 1 with
      | nil => exact ⟨v, by simp [h0, h1, hv]⟩
      | cons a as => exact ⟨a :: as, by simp [h0, h1]⟩
    | cons a as => exact ⟨a :: as, by simp [h0]⟩

theorem processWindow_isOk (useCli : Bool) (cliO : ℤ → ℤ → ℕ → ℕ → List Sample)
    (fetchO : ℤ → ℤ → ℕ → Except String (List Sample))
    (hok : ∀ a b i, ∃ v, fetchO a b i = .ok v) (ws we : ℤ) (st : BackfillState) :
    ∃ r, processWindow useCli cliO fetchO ws we st = .ok r := by
  unfold processWindow
  by_cases h : get_point_names st.pts 100000 = []
  · rw [if_pos h]
    rcases chunkFetch_isOk useCli (cliO ws we 0) (fetchO ws we 0) (hok ws we 0) with ⟨v, hv⟩
    rw [hv]
    cases v with
    | nil => exact ⟨(st, 0), rfl⟩
    | cons a as => exact ⟨_, rfl⟩
  · rw [if_neg h]
    apply foldlM_except_ok
    intro acc x
    rcases chunkFetch_isOk useCli (cliO ws we x.1) (fetchO ws we x.1) (hok ws we x.1) with ⟨v, hv⟩
    rw [hv]
    cases v with
    | nil => exact ⟨acc, rfl⟩
    | cons a as => exact ⟨_, rfl⟩

theorem run_backfill_go_ok (useCli : Bool) (cliO : ℤ → ℤ → ℕ → ℕ → List Sample)
    (fetchO : ℤ → ℤ → ℕ → Except String (List Sample)) (start delta : ℤ)
    (hok : ∀ a b i, ∃ v, fetchO a b i = .ok v) :
    ∀ (fuel : ℕ) (wend : ℤ) (st : BackfillState) (inserted : ℕ),
      ∃ stf insf wendf,
        run_backfill_go useCli cliO fetchO start delta fuel wend st inserted =
          .ok (stf, insf, wendf, walkWindows start delta fuel wend) := by
  intro fuel
  induction fuel with
  | zero =>
    intro wend st inserted
    exact ⟨st, inserted, wend, rfl⟩
  | succ fuel ih =>
    intro wend st inserted
    by_cases hw : start < wend
    · rcases processWindow_isOk useCli cliO fetchO hok
        (max start (wend - delta)) wend st with ⟨r, hr⟩
      rcases ih (max start (wend - delta)) r.1 (inserted + r.2) with ⟨stf, insf, wendf, hrec⟩
      refine ⟨stf, insf, wendf, ?_⟩
      simp [run_backfill_go, walkWindows, hr, hrec, hw]
    · refine ⟨st, inserted, wend, ?_⟩
      simp [run_backfill_go, walkWindows, hw]

theorem walkWindows_stop (start delta wend : ℤ) (h : ¬ start < wend) :
    ∀ fuel, walkWindows start delta fuel wend = [] := by
  intro fuel
  cases fuel with
  | zero => rfl
  | succ fuel => rw [walkWindows, if_neg h]

theorem walkWindows_length (start delta : ℤ) (hd : 0 < delta) :
    ∀ (fuel : ℕ) (wend : ℤ), start < wend →
      (walkWindows start delta fuel wend).length =
        min fuel (((wend - start).toNat + delta.toNat - 1) / delta.toNat) := by
  intro fuel
  induction fuel with
  | zero => intro wend _; simp [walkWindows]
  | succ fuel ih =>
    intro wend hw
    rw [walkWindows, if_pos hw, List.length_cons]
    by_cases hcase : wend - delta ≤ start
    · rw [max_eq_left hcase, walkWindows_stop start delta start (by omega) fuel]
      have hdiv : ((wend - start).toNat + delta.toNat - 1) / delta.toNat = 1 := by
        apply Nat.div_eq_of_lt_le <;> omega
      rw [hdiv]
      simp only [List.length_nil]
      omega
    · have hset : start < wend - delta := by omega
      rw [max_eq_right (by omega : start ≤ wend - delta), ih (wend - delta) hset]
      have e0 : (wend - delta - start).toNat = (wend - start).toNat - delta.toNat := by
        omega
      have e1 : (wend - start).toNat - delta.toNat + delta.toNat - 1
          = (wend - start).toNat - 1 := by omega
      have e2 : (wend - start).toNat + delta.toNat - 1
          = ((wend - start).toNat - 1) + delta.toNat := by omega
      rw [e0, e1, e2, Nat.add_div_right _ (by omega : 0 < delta.toNat)]
      generalize ((wend - start).toNat - 1) / delta.toNat = q
      omega

theorem walkWindows_bounds (start delta : ℤ) (hd : 0 < delta) :
    ∀ (fuel : ℕ) (wend : ℤ), ∀ p ∈ walkWindows start delta fuel wend,
      start ≤ p.1 ∧ p.2 ≤ wend ∧ p.1 < p.2 := by
  intro fuel
  induction fuel with
  | zero => intro wend p hp; cases hp
  | succ fuel ih =>
    intro wend p hp
    rw [walkWindows] at hp
    by_cases hw : start < wend
    · rw [if_pos hw] at hp
      rcases List.mem_cons.mp hp with h | h
      · subst h
        exact ⟨le_max_left _ _, le_rfl, by omega⟩
      · rcases ih (max start (wend - delta)) p h with ⟨h1, h2, h3⟩
        exact ⟨h1, by omega, h3⟩
    · rw [if_neg hw] at hp
      cases hp

theorem walkWindows_head (start delta wend : ℤ) (fuel : ℕ)
    (hw : start < wend) (hf : 0 < fuel) :
    ∃ rest, walkWindows start delta fuel wend =
      (max start (wend - delta), wend) :: rest := by
  cases fuel with
  | zero => omega
  | succ fuel => exact ⟨_, by rw [walkWindows, if_pos hw]⟩

/-! ## Helper lemmas: ISO offsets -/

theorem replaceZdata_append_z (l : List Char) (h : ∀ c ∈ l, c ≠ 'Z') :
    replaceZdata (l ++ ['Z']) = l ++ ['+', '0', '0', ':', '0', '0'] := by
  induction l with
  | nil => rfl
  | cons c cs ih =>
    rw [List.cons_append, replaceZdata, if_neg (h c (by simp)),
      ih (fun c hc => h c (by simp [hc])), List.cons_append]

theorem replaceZ_append_z (s : String) (h : ∀ c ∈ s.data, c ≠ 'Z') :
    replaceZ (s ++ "Z") = s ++ "+00:00" := by
  unfold replaceZ
  have hd : (s ++ "Z").data = s.data ++ ['Z'] := by
    rw [String.data_append]
  rw [hd, replaceZdata_append_z s.data h]
  apply String.ext
  show s.data ++ ['+', '0', '0', ':', '0', '0'] = (s ++ "+00:00").data
  rw [String.data_append]

theorem splitIsoOffset_append (l : List Char) (hne : l ≠ []) :
    splitIsoOffset (l ++ ['+', '0', '0', ':', '0', '0']) = (l, some 0) := by
  have hlen : (l ++ ['+', '0', '0', ':', '0', '0']).length = l.length + 6 := by
    simp
  have hpos : 1 ≤ l.length := List.length_pos.mpr hne
  unfold splitIsoOffset
  rw [hlen, if_pos (by omega : 7 ≤ l.length + 6)]
  have hsub : l.length + 6 - 6 = l.length := by omega
  rw [hsub, List.drop_left, List.take_left]
  rfl

theorem fromisoformat_offset (s : String) (dt : PyDateTime)
    (h : fromisoformat s = some dt) :
    dt.tzOffsetMin = (splitIsoOffset s.data).2 := by
  simp only [fromisoformat] at h
  cases hf : parseIsoFields (splitIsoOffset s.data).1 with
  | none => rw [hf] at h; cases h
  | some f =>
    rw [hf] at h
    dsimp only [Option.map] at h
    obtain rfl := Option.some.inj h
    rfl

theorem timestampMs_aware (dt : PyDateTime) (o tz tz' : ℤ)
    (h : dt.tzOffsetMin = some o) : dt.timestampMs tz = dt.timestampMs tz' := by
  unfold PyDateTime.timestampMs
  rw [h]
  rfl

/-! ## Helper lemmas: keyed tables, filters and last occurrences -/

theorem lookup_eq_none_of_not_mem_keys (l : List (κ × α)) (k : κ)
    (h : k ∉ l.map Prod.fst) : alistLookup l k = none := by
  induction l with
  | nil => rfl
  | cons p rest ih =>
    rw [alistLookup_cons, if_neg (fun hc => h (by simp [hc]))]
    exact ih (fun hm => h (by simp [hm]))

theorem filter_keys_nil (l : List (κ × α)) (k : κ) (h : k ∉ l.map Prod.fst) :
    l.filter (fun p => decide (p.1 = k)) = [] := by
  induction l with
  | nil => rfl
  | cons p rest ih =>
    rw [List.filter_cons, if_neg (by simp; intro hc; exact h (by simp [hc]))]
    exact ih (fun hm => h (by simp [hm]))

theorem filter_keys_singleton (l : List (κ × α)) (k : κ)
    (hnd : (l.map Prod.fst).Nodup) (hmem : k ∈ l.map Prod.fst) :
    ∃ v, l.filter (fun p => decide (p.1 = k)) = [(k, v)] := by
  induction l with
  | nil => cases hmem
  | cons p rest ih =>
    rw [List.map_cons] at hnd hmem
    by_cases hp : p.1 = k
    · refine ⟨p.2, ?_⟩
      rw [List.filter_cons, if_pos (by simp [hp])]
      have hknotin : k ∉ rest.map Prod.fst := by
        have h1 := (List.nodup_cons.mp hnd).1
        rwa [hp] at h1
      rw [filter_keys_nil rest k hknotin]
      rw [← hp]
    · rcases List.mem_cons.mp hmem with hc | hc
      · exact absurd hc.symm hp
      · rcases ih (List.nodup_cons.mp hnd).2 hc with ⟨v, hv⟩
        refine ⟨v, ?_⟩
        rw [List.filter_cons, if_neg (by simp [hp]), hv]

theorem find_of_filter_singleton (l : List (κ × α))
    (p : κ × α → Bool) (x : κ × α) (h : l.filter p = [x]) :
    l.find? p = some x := by
  induction l with
  | nil => cases h
  | cons q rest ih =>
    rw [List.filter_cons] at h
    by_cases hq : p q
    · rw [if_pos hq] at h
      obtain ⟨h1, _⟩ := List.cons.inj h
      rw [List.find?_cons, hq, h1]
    · rw [if_neg hq] at h
      rw [List.find?_cons]
      cases hpq : p q
      · exact ih h
      · exact absurd hpq (by simp [hq])

theorem lastOcc_of_filter_nil (key : β → κ) (l : List β) (k : κ)
    (h : l.filter (fun x => decide (key x = k)) = []) :
    lastOcc key l k = none := by
  induction l with
  | nil => rfl
  | cons x rest ih =>
    rw [List.filter_cons] at h
    by_cases hx : key x = k
    · rw [if_pos (by simp [hx])] at h
      cases h
    · rw [if_neg (by simp [hx])] at h
      rw [lastOcc_cons, ih h]
      simp [hx]

theorem lastOcc_of_filter_singleton (key : β → κ) (l : List β) (k : κ) (x : β)
    (h : l.filter (fun y => decide (key y = k)) = [x]) :
    lastOcc key l k = some x := by
  induction l with
  | nil => cases h
  | cons y rest ih =>
    rw [List.filter_cons] at h
    by_cases hy : key y = k
    · rw [if_pos (by simp [hy])] at h
      obtain ⟨h1, h2⟩ := List.cons.inj h
      rw [lastOcc_cons, lastOcc_of_filter_nil key rest k h2]
      subst h1
      simp [hy]
    · rw [if_neg (by simp [hy])] at h
      rw [lastOcc_cons, ih h]

theorem lastOcc_eq_none (key : β → κ) (l : List β) (k : κ)
    (h : ∀ x ∈ l, key x ≠ k) : lastOcc key l k = none := by
  apply lastOcc_of_filter_nil
  rw [List.filter_eq_nil_iff]
  intro x hx
  simp [h x hx]

theorem lastOcc_mem (key : β → κ) (l : List β) (k : κ) (r : β)
    (h : lastOcc key l k = some r) : r ∈ l ∧ key r = k := by
  induction l with
  | nil => cases h
  | cons x rest ih =>
    rw [lastOcc_cons] at h
    cases ho : lastOcc key rest k with
    | some y =>
      rw [ho] at h
      obtain rfl := Option.some.inj h
      rcases ih ho with ⟨h1, h2⟩
      exact ⟨by simp [h1], h2⟩
    | none =>
      rw [ho] at h
      by_cases hx : key x = k
      · rw [if_pos hx] at h
        obtain rfl := Option.some.inj h
        exact ⟨by simp, hx⟩
      · rw [if_neg hx] at h
        cases h

theorem lookup_map_entries (key : β → κ) (val : β → α) (b : List β) (k : κ)
    (hnd : (b.map key).Nodup) :
    alistLookup (b.map (fun r => (key r, val r))) k =
      (lastOcc key b k).map val := by
  induction b with
  | nil => rfl
  | cons r rest ih =>
    rw [List.map_cons] at hnd
    rw [List.map_cons, alistLookup_cons, lastOcc_cons]
    by_cases hr : key r = k
    · rw [if_pos hr]
      have hnone : lastOcc key rest k = none := by
        apply lastOcc_eq_none
        intro x hx hc
        exact (List.nodup_cons.mp hnd).1 (hr ▸ hc ▸ List.mem_map_of_mem key hx)
      rw [hnone]
      simp [hr]
    · rw [if_neg hr, ih (List.nodup_cons.mp hnd).2]
      cases lastOcc key rest k <;> simp [hr]

theorem hasKey_append (l₁ l₂ : List (κ × α)) (k : κ) :
    alistHasKey (l₁ ++ l₂) k = (alistHasKey l₁ k || alistHasKey l₂ k) := by
  unfold alistHasKey
  rw [List.any_append]

/-! ## Helper lemmas: the point upsert -/

theorem pyDedupFirst_go_nodup :
    ∀ (l acc : List String), acc.Nodup →
      (l.foldl (fun acc n => if acc.contains n then acc else acc ++ [n]) acc).Nodup := by
  intro l
  induction l with
  | nil => intro acc h; exact h
  | cons x xs ih =>
    intro acc h
    rw [List.foldl_cons]
    by_cases hc : acc.contains x
    · rw [if_pos hc]; exact ih acc h
    · rw [if_neg hc]
      refine ih _ (List.Nodup.append h (List.nodup_singleton x) ?_)
      intro a ha hb
      rw [List.mem_singleton] at hb
      subst hb
      exact hc (List.elem_iff.mpr ha)

theorem pyDedupFirst_go_mem :
    ∀ (l acc : List String) (x : String),
      x ∈ l.foldl (fun acc n => if acc.contains n then acc else acc ++ [n]) acc ↔
        x ∈ acc ∨ x ∈ l := by
  intro l
  induction l with
  | nil => intro acc x; simp
  | cons y ys ih =>
    intro acc x
    rw [List.foldl_cons]
    by_cases hc : acc.contains y
    · rw [if_pos hc, ih]
      constructor
      · rintro (h | h)
        · exact Or.inl h
        · exact Or.inr (by simp [h])
      · rintro (h | h)
        · exact Or.inl h
        · rcases List.mem_cons.mp h with h | h
          · subst h; exact Or.inl (List.elem_iff.mp hc)
          · exact Or.inr h
    · rw [if_neg hc, ih]
      constructor
      · rintro (h | h)
        · rcases List.mem_append.mp h with h | h
          · exact Or.inl h
          · rw [List.mem_singleton] at h; subst h; exact Or.inr (by simp)
        · exact Or.inr (by simp [h])
      · rintro (h | h)
        · exact Or.inl (List.mem_append.mpr (Or.inl h))
        · rcases List.mem_cons.mp h with h | h
          · subst h; exact Or.inl (List.mem_append.mpr (Or.inr (by simp)))
          · exact Or.inr h

theorem pyDedupFirst_nodup (l : List String) : (pyDedupFirst l).Nodup :=
  pyDedupFirst_go_nodup l [] List.nodup_nil

theorem pyDedupFirst_mem (l : List String) (x : String) :
    x ∈ pyDedupFirst l ↔ x ∈ l := by
  unfold pyDedupFirst
  rw [pyDedupFirst_go_mem]
  simp

theorem pySortedSet_nodup (l : List String) : (pySortedSet l).Nodup :=
  pyDedupFirst_nodup _

theorem insertPointsOpt_some (t : PtsTable) (names : List String)
    (hnd : names.Nodup) (hdisj : ∀ n ∈ names, ¬ alistHasKey t.rows n = true) :
    insertPointsOpt t names =
      some { rows := t.rows ++ names.enum.map (fun p => (p.2, t.nextId + p.1)),
             nextId := t.nextId + names.length } := by
  unfold insertPointsOpt
  rw [if_neg]
  push_neg
  constructor
  · intro hany
    rcases List.any_eq_true.mp hany with ⟨n, hn, hk⟩
    exact hdisj n hn hk
  · exact hnd

theorem enum_map_fst_pair {γ : Type} (l : List γ) (f : ℕ × γ → γ × ℤ)
    (hf : ∀ p, (f p).1 = p.2) : (l.enum.map f).map Prod.fst = l := by
  rw [List.map_map]
  have : (Prod.fst ∘ f) = Prod.snd := funext (fun p => hf p)
  rw [this, List.enum_map_snd]

theorem insFold_spec :
    ∀ (chunks : List (List String)) (t : PtsTable),
      chunks.flatten.Nodup →
      (∀ n ∈ chunks.flatten, ¬ alistHasKey t.rows n = true) →
      ∃ R : List (String × ℤ),
        (chunks.foldl (fun acc batch => (insertPointsOpt acc batch).getD acc) t).rows
          = t.rows ++ R ∧ R.map Prod.fst = chunks.flatten := by
  intro chunks
  induction chunks with
  | nil =>
    intro t _ _
    exact ⟨[], by simp, rfl⟩
  | cons b rest ih =>
    intro t hnd hdisj
    rw [List.flatten_cons] at hnd hdisj
    have hb_nd : b.Nodup := (List.nodup_append.mp hnd).1
    have hb_disj : ∀ n ∈ b, ¬ alistHasKey t.rows n = true :=
      fun n hn => hdisj n (List.mem_append.mpr (Or.inl hn))
    have hins := insertPointsOpt_some t b hb_nd hb_disj
    rw [List.foldl_cons, hins]
    set newR := b.enum.map (fun p => (p.2, t.nextId + p.1)) with hnewR
    have hnewR_fst : newR.map Prod.fst = b :=
      enum_map_fst_pair b _ (fun p => rfl)
    set t1 : PtsTable := { rows := t.rows ++ newR, nextId := t.nextId + b.length }
    have hrest_disj : ∀ n ∈ rest.flatten, ¬ alistHasKey t1.rows n = true := by
      intro n hn
      show ¬ alistHasKey (t.rows ++ newR) n = true
      rw [hasKey_append]
      simp only [Bool.or_eq_true]
      push_neg
      constructor
      · exact hdisj n (List.mem_append.mpr (Or.inr hn))
      · intro hk
        rcases List.any_eq_true.mp hk with ⟨p, hp, hpk⟩
        have : p.1 ∈ newR.map Prod.fst := List.mem_map_of_mem Prod.fst hp
        rw [hnewR_fst] at this
        rw [decide_eq_true_eq] at hpk
        subst hpk
        exact (List.disjoint_of_nodup_append hnd) this hn
    rcases ih t1 (List.nodup_append.mp hnd).2.1 hrest_disj with ⟨R', hR1, hR2⟩
    refine ⟨newR ++ R', ?_, ?_⟩
    · show (rest.foldl (fun acc batch => (insertPointsOpt acc batch).getD acc) t1).rows
        = t.rows ++ (newR ++ R')
      rw [hR1]
      show t.rows ++ newR ++ R' = t.rows ++ (newR ++ R')
      rw [List.append_assoc]
    · rw [List.map_append, hnewR_fst, hR2, List.flatten_cons]

theorem selectPoints_lastOcc_not_mem (t' : PtsTable) (batch : List String)
    (m : String) (hm : m ∉ batch) :
    lastOcc Prod.fst (selectPoints t' batch) m = none := by
  apply lastOcc_eq_none
  intro x hx hc
  unfold selectPoints at hx
  have hcont := List.of_mem_filter hx
  rw [hc] at hcont
  exact hm (List.elem_iff.mp hcont)

theorem selectPoints_lastOcc_mem (t' : PtsTable) (batch : List String)
    (m : String) (i : ℤ)
    (hfilter : t'.rows.filter (fun p => decide (p.1 = m)) = [(m, i)])
    (hm : m ∈ batch) :
    lastOcc Prod.fst (selectPoints t' batch) m = some (m, i) := by
  apply lastOcc_of_filter_singleton
  unfold selectPoints
  rw [List.filter_filter, ← hfilter]
  apply List.filter_congr
  intro p hp
  by_cases hpm : p.1 = m
  · have hcm : batch.contains m = true := List.elem_iff.mpr hm
    simp [hpm, hcm, hm]
  · simp [hpm]

theorem cacheFill_lookup (t' : PtsTable) :
    ∀ Bs : List (List String),
      (∀ m ∈ Bs.flatten, ∃ i,
        t'.rows.filter (fun p => decide (p.1 = m)) = [(m, i)]) →
      ∀ (c : List (String × ℤ)) (m : String),
        alistLookup
          (Bs.foldl (fun c2 batch => (selectPoints t' batch).foldl
            (fun c3 p => alistSet c3 p.1 p.2) c2) c) m
          = if m ∈ Bs.flatten then alistLookup t'.rows m
            else alistLookup c m := by
  intro Bs
  induction Bs with
  | nil => intro _ c m; simp
  | cons b rest ih =>
    intro H c m
    have Hrest : ∀ m ∈ rest.flatten, ∃ i,
        t'.rows.filter (fun p => decide (p.1 = m)) = [(m, i)] := by
      intro m hm
      exact H m (by rw [List.flatten_cons]; exact List.mem_append.mpr (Or.inr hm))
    rw [List.foldl_cons, ih Hrest]
    by_cases hmr : m ∈ rest.flatten
    · rw [if_pos hmr,
        if_pos (by rw [List.flatten_cons]; exact List.mem_append.mpr (Or.inr hmr))]
    · rw [if_neg hmr]
      rw [foldl_set_lookup (Prod.fst : String × ℤ → String) Prod.snd
        (selectPoints t' b) c m]
      by_cases hmb : m ∈ b
      · rcases H m (by rw [List.flatten_cons]; exact List.mem_append.mpr (Or.inl hmb))
          with ⟨i, hi⟩
        rw [selectPoints_lastOcc_mem t' b m i hi hmb,
          if_pos (by rw [List.flatten_cons]; exact List.mem_append.mpr (Or.inl hmb))]
        have hfind := find_of_filter_singleton t'.rows _ (m, i) hi
        unfold alistLookup
        rw [hfind]
      · rw [selectPoints_lastOcc_not_mem t' b m hmb,
          if_neg (by
            rw [List.flatten_cons]
            intro hc
            rcases List.mem_append.mp hc with hc | hc
            · exact hmb hc
            · exact hmr hc)]

/-- The specification of the backfill `upsert_points` under the engine
invariant that the cache agrees with the table: agreement is preserved, and
every requested (truthy, deduplicated) name resolves in the new cache. -/
theorem upsert_points_backfill_spec (t : PtsTable) (cache : List (String × ℤ))
    (names0 : List String) (hagree : PtsAgree cache t) :
    PtsAgree (upsert_points_backfill t cache names0).2.1
      (upsert_points_backfill t cache names0).1 ∧
    (∀ n ∈ pySortedSet names0,
      (alistLookup (upsert_points_backfill t cache names0).2.1 n).isSome = true) := by
  unfold upsert_points_backfill
  by_cases hnil : pySortedSet names0 = []
  · rw [if_pos hnil]
    exact ⟨hagree, by intro n hn; rw [hnil] at hn; cases hn⟩
  · rw [if_neg hnil]
    dsimp only
    set names := pySortedSet names0 with hnames
    set NN := names.filter (fun n => ¬ alistHasKey cache n) with hNN
    by_cases hNNnil : NN = []
    · rw [if_pos hNNnil, if_pos hNNnil]
      refine ⟨hagree, ?_⟩
      intro n hn
      have hkey : alistHasKey cache n = true := by
        by_contra hk
        have : n ∈ NN := by
          rw [hNN]
          exact List.mem_filter.mpr ⟨hn, by simpa using hk⟩
        rw [hNNnil] at this
        cases this
      rwa [alistHasKey_eq_isSome] at hkey
    · rw [if_neg hNNnil, if_neg hNNnil]
      have hNN_nd : NN.Nodup := List.Nodup.filter _ (pySortedSet_nodup names0)
      have hNN_not_cache : ∀ n ∈ NN, ¬ alistHasKey cache n = true := by
        intro n hn
        have := (List.mem_filter.mp (hNN ▸ hn)).2
        simpa using this
      have hNN_not_table : ∀ n ∈ NN, ¬ alistHasKey t.rows n = true := by
        intro n hn hk
        apply hNN_not_cache n hn
        rw [alistHasKey_eq_isSome, hagree n, ← alistHasKey_eq_isSome]
        exact hk
      have hflat : (pyChunks NN 50).flatten = NN := pyChunks_flatten NN 50 (by omega)
      rcases insFold_spec (pyChunks NN 50) t (by rw [hflat]; exact hNN_nd)
        (by rw [hflat]; exact hNN_not_table) with ⟨R, hR1, hR2⟩
      rw [hflat] at hR2
      set t' := (pyChunks NN 50).foldl
        (fun acc batch => (insertPointsOpt acc batch).getD acc) t with ht'
      -- per-name facts on t'
      have hsingle : ∀ m ∈ NN, ∃ i,
          t'.rows.filter (fun p => decide (p.1 = m)) = [(m, i)] := by
        intro m hm
        rw [hR1, List.filter_append]
        rw [filter_keys_nil t.rows m (fun hmem => by
          apply hNN_not_table m hm
          rcases List.mem_map.mp hmem with ⟨p, hp, hpk⟩
          exact List.any_eq_true.mpr ⟨p, hp, by simp [hpk]⟩)]
        have hmemR : m ∈ R.map Prod.fst := by rw [hR2]; exact hm
        rcases filter_keys_singleton R m (by rw [hR2]; exact hNN_nd) hmemR with ⟨v, hv⟩
        exact ⟨v, by rw [hv]; rfl⟩
      have hold : ∀ m, m ∉ NN → alistLookup t'.rows m = alistLookup t.rows m := by
        intro m hm
        rw [hR1, alistLookup_append]
        cases hl : alistLookup t.rows m
        · rw [lookup_eq_none_of_not_mem_keys R m (by rw [hR2]; exact hm)]
        · rfl
      have hnew : ∀ m ∈ NN, alistLookup t'.rows m =
          some ((t'.rows.filter (fun p => decide (p.1 = m))).headI.2) := by
        intro m hm
        rcases hsingle m hm with ⟨i, hi⟩
        have hfind := find_of_filter_singleton t'.rows _ (m, i) hi
        unfold alistLookup
        rw [hfind, hi]
        rfl
      have hflat100 : (pyChunks NN 100).flatten = NN := pyChunks_flatten NN 100 (by omega)
      have hcache : ∀ m, alistLookup
          ((pyChunks NN 100).foldl (fun c batch => (selectPoints t' batch).foldl
            (fun c2 p => alistSet c2 p.1 p.2) c) cache) m
          = if m ∈ NN then alistLookup t'.rows m else alistLookup cache m := by
        intro m
        rw [cacheFill_lookup t' (pyChunks NN 100)
          (by rw [hflat100]; exact hsingle) cache m, hflat100]
      constructor
      · intro m
        rw [hcache m]
        by_cases hm : m ∈ NN
        · rw [if_pos hm]
        · rw [if_neg hm, hagree m, hold m hm]
      · intro n hn
        rw [hcache n]
        by_cases hm : n ∈ NN
        · rw [if_pos hm]
          rcases hsingle n hm with ⟨i, hi⟩
          have hfind := find_of_filter_singleton t'.rows _ (n, i) hi
          unfold alistLookup
          rw [hfind]
          rfl
        · rw [if_neg hm]
          have hkey : alistHasKey cache n = true := by
            by_contra hk
            exact hm (hNN ▸ List.mem_filter.mpr ⟨hn, by simpa using hk⟩)
          rwa [alistHasKey_eq_isSome] at hkey

theorem tsUpsertBatch_lookup (st : TsStore) (batch : List TRow) (k : ℤ × String) :
    alistLookup (tsUpsertBatch st batch) k =
      match lastOcc rowKey batch k with
      | some r => some r.value
      | none => alistLookup st k := by
  unfold tsUpsertBatch
  have h := foldl_set_lookup rowKey (fun r : TRow => r.value) batch st k
  unfold rowKey at h ⊢
  rw [h]
  cases lastOcc (fun r : TRow => (r.point_id, r.ts)) batch k <;> rfl

theorem tsUpsertBatch_congr (a a' : TsStore) (c : List TRow) (h : LookupEq a a') :
    LookupEq (tsUpsertBatch a c) (tsUpsertBatch a' c) := by
  intro k
  rw [tsUpsertBatch_lookup, tsUpsertBatch_lookup]
  cases ho : lastOcc rowKey c k
  · exact h k
  · rfl

theorem tsUpsertBatch_idem (st : TsStore) (rows : List TRow) :
    LookupEq (tsUpsertBatch (tsUpsertBatch st rows) rows) (tsUpsertBatch st rows) := by
  intro k
  rw [tsUpsertBatch_lookup (tsUpsertBatch st rows) rows k]
  cases ho : lastOcc rowKey rows k with
  | some r =>
    rw [tsUpsertBatch_lookup st rows k, ho]
  | none => rfl

/-- The insert-with-upsert-fallback of one 50-row backfill batch is, seen
through first-match lookup, exactly the plain conflict-keyed upsert. -/
theorem tsApplyStore_lookup (st : TsStore) (batch : List TRow) (k : ℤ × String) :
    alistLookup (tsApplyStore st batch) k =
      alistLookup (tsUpsertBatch st batch) k := by
  unfold tsApplyStore
  by_cases hc : tsInsertConflict st batch = true
  · rw [if_pos hc]
    have he : (pyChunks batch 10).foldl (fun a mini => tsUpsertBatch a mini) st
        = batch.foldl (fun s r => alistSet s (r.point_id, r.ts) r.value) st := by
      unfold tsUpsertBatch
      exact foldl_chunks (fun (s : TsStore) (r : TRow) =>
        alistSet s (r.point_id, r.ts) r.value) batch 10 (by omega) st
    rw [he]
    rfl
  · rw [if_neg hc]
    simp only [tsInsertConflict, Bool.or_eq_true, List.any_eq_true,
      decide_eq_true_eq, not_or, not_not] at hc
    obtain ⟨hno, hnd⟩ := hc
    push_neg at hno
    have hmap : batch.map (fun r => ((r.point_id, r.ts), r.value))
        = batch.map (fun r => (rowKey r, r.value)) := rfl
    have hent := lookup_map_entries rowKey (fun r : TRow => r.value) batch k hnd
    rw [alistLookup_append, hmap, hent, tsUpsertBatch_lookup]
    cases ho : lastOcc rowKey batch k with
    | none =>
      cases alistLookup st k <;> rfl
    | some r =>
      rcases lastOcc_mem rowKey batch k r ho with ⟨hrmem, hrk⟩
      have hst : alistLookup st k = none := by
        cases hl : alistLookup st k with
        | none => rfl
        | some v =>
          exfalso
          apply hno r hrmem
          have hkk : (r.point_id, r.ts) = k := hrk
          rw [hkk, alistHasKey_eq_isSome, hl]
          rfl
      rw [hst]
      rfl

theorem chunkfold_lookup (L : List (List TRow)) :
    ∀ a a' : TsStore, LookupEq a a' →
      LookupEq (L.foldl (fun s c => tsApplyStore s c) a)
        (L.foldl (fun s c => tsUpsertBatch s c) a') := by
  induction L with
  | nil => intro a a' h; exact h
  | cons c cs ih =>
    intro a a' h
    rw [List.foldl_cons, List.foldl_cons]
    apply ih
    intro k
    rw [tsApplyStore_lookup a c k]
    exact tsUpsertBatch_congr a a' c h k

theorem tsUpsertFold_chunks (rows : List TRow) (st : TsStore) :
    (pyChunks rows 50).foldl (fun s c => tsUpsertBatch s c) st
      = tsUpsertBatch st rows := by
  unfold tsUpsertBatch
  exact foldl_chunks (fun (s : TsStore) (r : TRow) =>
    alistSet s (r.point_id, r.ts) r.value) rows 50 (by omega) st

theorem tsUpsertFold_chunks250 (rows : List TRow) (st : TsStore) :
    (pyChunks rows 250).foldl (fun s c => tsUpsertBatch s c) st
      = tsUpsertBatch st rows := by
  unfold tsUpsertBatch
  exact foldl_chunks (fun (s : TsStore) (r : TRow) =>
    alistSet s (r.point_id, r.ts) r.value) rows 250 (by omega) st

theorem foldl_pair_fst (g : TsStore → List TRow → TsStore) (L : List (List TRow)) :
    ∀ p : TsStore × ℕ,
      (L.foldl (fun acc batch => (g acc.1 batch, acc.2 + batch.length)) p).1
        = L.foldl (fun a batch => g a batch) p.1 := by
  induction L with
  | nil => intro p; rfl
  | cons b bs ih =>
    intro p
    rw [List.foldl_cons, List.foldl_cons]
    exact ih (g p.1 b, p.2 + b.length)

theorem tsApplyBatches_fst_lookup (st : TsStore) (u : List TRow) :
    LookupEq (tsApplyBatches st u).1 (tsUpsertBatch st u) := by
  have hfst : (tsApplyBatches st u).1
      = (pyChunks u 50).foldl (fun a b => tsApplyStore a b) st :=
    foldl_pair_fst tsApplyStore (pyChunks u 50) (st, 0)
  rw [hfst]
  intro k
  rw [chunkfold_lookup (pyChunks u 50) st st (fun _ => rfl) k,
    tsUpsertFold_chunks]

theorem tsApplyBatches_idem_lookup (st : TsStore) (u : List TRow) :
    LookupEq (tsApplyBatches (tsApplyBatches st u).1 u).1
      (tsApplyBatches st u).1 := by
  intro k
  rw [tsApplyBatches_fst_lookup (tsApplyBatches st u).1 u k,
    tsUpsertBatch_congr _ _ u (tsApplyBatches_fst_lookup st u) k,
    tsUpsertBatch_idem st u k]
  exact (tsApplyBatches_fst_lookup st u k).symm

theorem upsert_timeseries_main_fst (st : TsStore) (rows : List TRow) :
    (upsert_timeseries_main st rows).1 = tsUpsertBatch st rows := by
  have h : (upsert_timeseries_main st rows).1
      = (pyChunks rows 250).foldl (fun a b => tsUpsertBatch a b) st :=
    foldl_pair_fst tsUpsertBatch (pyChunks rows 250) (st, 0)
  rw [h, tsUpsertFold_chunks250]

/-- When every requested name is already cached, the backfill `upsert_points`
changes nothing: it returns the table and cache unchanged and resolves the
ids straight from the cache. -/
theorem upsert_points_backfill_cached (t₁ : PtsTable) (c₁ : List (String × ℤ))
    (names0 : List String)
    (hc : ∀ n ∈ pySortedSet names0, (alistLookup c₁ n).isSome = true) :
    upsert_points_backfill t₁ c₁ names0
      = (t₁, c₁, (pySortedSet names0).filterMap
          (fun n => (alistLookup c₁ n).map (fun i => (n, i)))) := by
  rw [upsert_points_backfill]
  by_cases hnil : pySortedSet names0 = []
  · rw [if_pos hnil, hnil]
    rfl
  · rw [if_neg hnil]
    dsimp only
    have hnn : (pySortedSet names0).filter
        (fun n => ¬ alistHasKey c₁ n) = [] := by
      rw [List.filter_eq_nil_iff]
      intro n hn
      simp [alistHasKey_eq_isSome, hc n hn]
    rw [hnn]
    simp

theorem upsert_points_backfill_map_ids_eq (t : PtsTable)
    (cache : List (String × ℤ)) (names0 : List String) :
    (upsert_points_backfill t cache names0).2.2
      = (pySortedSet names0).filterMap (fun n =>
          (alistLookup (upsert_points_backfill t cache names0).2.1 n).map
            (fun i => (n, i))) := by
  rw [upsert_points_backfill]
  by_cases hnil : pySortedSet names0 = []
  · rw [if_pos hnil, hnil]
    rfl
  · rw [if_neg hnil]

/-- Re-running the backfill `upsert_points` on its own output is the
identity: under the cache-agreement invariant, the second call changes
neither the table nor the cache and returns the same id map. -/
theorem upsert_points_backfill_stable (t : PtsTable) (cache : List (String × ℤ))
    (names0 : List String) (hagree : PtsAgree cache t) :
    upsert_points_backfill (upsert_points_backfill t cache names0).1
      (upsert_points_backfill t cache names0).2.1 names0
      = upsert_points_backfill t cache names0 := by
  rcases upsert_points_backfill_spec t cache names0 hagree with ⟨hag2, hcached⟩
  rw [upsert_points_backfill_cached _ _ _ hcached,
    ← upsert_points_backfill_map_ids_eq t cache names0]

/-! ## Claim theorems -/

/-- C6: for every input list of canonical samples, deduplication
(`deduplicate_samples` in main.py, and the row dedup inside the backfill
`upsert_timeseries`) returns exactly one sample per distinct
`(point_id, ts)` key — filtering the output at any key yields exactly the
occurrence of that key appearing last in input order (last-write-wins), and
the output keys are pairwise distinct. -/
theorem C6_dedup_last_write_wins (samples : List TRow) (k : ℤ × String) :
    ((deduplicate_samples samples).filter (fun r => decide (rowKey r = k)) =
        (lastOcc rowKey samples k).toList) ∧
    ((deduplicate_samples samples).map rowKey).Nodup ∧
    ((dedupRows samples).filter (fun r => decide (rowKey r = k)) =
        (lastOcc rowKey samples k).toList) ∧
    ((dedupRows samples).map rowKey).Nodup :=
  ⟨dedupGeneric_filter rowKey samples k,
   dedupGeneric_keys_nodup rowKey samples,
   dedupGeneric_filter rowKey samples k,
   dedupGeneric_keys_nodup rowKey samples⟩

/-- C10: `fetch_timeseries_page` is total with errors as values: every
failure mode yields `([], none, some msg)`; the error component is `none`
exactly on a success (status < 400, parseable object body, sized samples
field); on success the samples and cursor are returned verbatim — so the
caller distinguishes failure from an empty page solely by the third
component. -/
theorem C10_fetch_page_total (r : HttpResult) :
    (∀ e, (fetch_timeseries_page r).2.2 = some e →
        (fetch_timeseries_page r).1 = [] ∧ (fetch_timeseries_page r).2.1 = none) ∧
    ((fetch_timeseries_page r).2.2 = none ↔
      ∃ status ps next, r = .resp status (.object ps next) ∧ status < 400 ∧
        ps ≠ SamplesField.notList) ∧
    (∀ status rows next, r = .resp status (.object (.list rows) next) →
      status < 400 → fetch_timeseries_page r = (rows, next, none)) := by
  refine ⟨?_, ⟨?_, ?_⟩, ?_⟩
  · intro e _
    rcases r with m | ⟨status, body⟩
    · exact ⟨rfl, rfl⟩
    · by_cases hs : 400 ≤ status
      · simp [fetch_timeseries_page, if_pos hs]
      · rcases body with _ | _ | ⟨ps, next⟩
        · simp [fetch_timeseries_page, if_neg hs]
        · simp [fetch_timeseries_page, if_neg hs]
        · rcases ps with _ | rows | _
          · rename_i he
            simp [fetch_timeseries_page, if_neg hs] at he
          · rename_i he
            simp [fetch_timeseries_page, if_neg hs] at he
          · simp [fetch_timeseries_page, if_neg hs]
  · intro h
    rcases r with m | ⟨status, body⟩
    · simp [fetch_timeseries_page] at h
    · by_cases hs : 400 ≤ status
      · simp [fetch_timeseries_page, if_pos hs] at h
      · rcases body with _ | _ | ⟨ps, next⟩
        · simp [fetch_timeseries_page, if_neg hs] at h
        · simp [fetch_timeseries_page, if_neg hs] at h
        · rcases ps with _ | rows | _
          · exact ⟨status, .absent, next, rfl, by omega, by intro hc; cases hc⟩
          · exact ⟨status, .list rows, next, rfl, by omega, by intro hc; cases hc⟩
          · simp [fetch_timeseries_page, if_neg hs] at h
  · rintro ⟨status, ps, next, rfl, hlt, hnl⟩
    have hs : ¬ 400 ≤ status := by omega
    rcases ps with _ | rows | _
    · simp [fetch_timeseries_page, if_neg hs]
    · simp [fetch_timeseries_page, if_neg hs]
    · exact absurd rfl hnl
  · rintro status rows next rfl hlt
    have hs : ¬ 400 ≤ status := by omega
    simp [fetch_timeseries_page, if_neg hs]

/-- Witness for C10: a concrete success and a concrete failure. -/
theorem C10_fetch_page_total_witness :
    fetch_timeseries_page (.resp 200 (.object (.list []) (some "c"))) =
      ([], some "c", none) ∧
    (fetch_timeseries_page (.netErr "boom")).1 = [] ∧
      (fetch_timeseries_page (.netErr "boom")).2.1 = none := by
  refine ⟨?_, ?_⟩
  · exact (C10_fetch_page_total (.resp 200 (.object (.list []) (some "c")))).2.2
      200 [] (some "c") rfl (by omega)
  · exact (C10_fetch_page_total (.netErr "boom")).1
      "ACE API request error: boom" rfl

/-- C7 counterexample: the backoff of the retry loop,
`0.5 * (attempt + 1) + jitter` (line 169), is NOT exponential — no ratio
`r > 1` relates consecutive base delays (the first two ratios are 2 and
3/2). -/
theorem C7_backoff_not_exponential :
    ¬ ∃ r : ℚ, 1 < r ∧ ∀ a : ℕ, backoffSleep (a + 1) 0 = r * backoffSleep a 0 := by
  rintro ⟨r, _, h⟩
  have h0 := h 0
  have h1 := h 1
  have e0 : backoffSleep 0 0 = 1 / 2 := by norm_num [backoffSleep]
  have e1 : backoffSleep 1 0 = 1 := by norm_num [backoffSleep]
  have e2 : backoffSleep 2 0 = 3 / 2 := by norm_num [backoffSleep]
  rw [e1, e0] at h0
  rw [e2, e1] at h1
  have hr2 : r = 2 := by linarith
  rw [hr2] at h1
  norm_num at h1

/-- C7 (amended): on retryable failures (connection error, malformed or
truncated body, or exhausted adapter-level retries of a server-error
status), the fetch+parse loop retries up to a fixed count of 4 attempts
with a LINEARLY increasing backoff `0.5 * (attempt + 1)` seconds plus
random jitter between attempts (not exponential backoff), shrinks the
requested page size geometrically (×0.6, integer-truncated) but never below
the fixed floor 10000 — staying within the floor and the 50000 cap on every
request — and, when all attempts are exhausted, propagates the last error. -/
theorem C7_retry_policy_amended (attempts : ℕ → ℕ → AttemptOutcome)
    (jit : ℕ → ℚ) (errF : ℕ → ℕ → String) (page_size : ℤ) :
    (∀ s ∈ (attemptLoopGo attempts jit 4 0 (initPageSize page_size) none [] []).sizes,
        10000 ≤ s ∧ s ≤ 50000) ∧
    (∀ a : ℕ, ∀ u : ℚ, backoffSleep (a + 1) u - backoffSleep a u = 1 / 2) ∧
    ((∀ a ps, attempts a ps = .retryable (errF a ps)) →
      ∀ ps : ℕ, attemptLoopGo attempts jit 4 0 ps none [] [] =
        .err (errF 3 (shrinkPage (shrinkPage (shrinkPage ps))))
          [ps, shrinkPage ps, shrinkPage (shrinkPage ps),
            shrinkPage (shrinkPage (shrinkPage ps))]
          [backoffSleep 0 (jit 0), backoffSleep 1 (jit 1),
            backoffSleep 2 (jit 2), backoffSleep 3 (jit 3)]) ∧
    (∀ ps : ℕ, 10000 ≤ ps → 10000 ≤ shrinkPage ps ∧ shrinkPage ps ≤ ps ∧
      (10000 < shrinkPage ps → shrinkPage ps = 6 * ps / 10)) := by
  refine ⟨?_, ?_, ?_, ?_⟩
  · exact attemptLoop_sizes_aux attempts jit 4 0 (initPageSize page_size) none [] []
      (initPageSize_bounds page_size) (by intro s hs; cases hs)
  · intro a u
    unfold backoffSleep
    push_cast
    ring
  · intro hfail ps
    simp [attemptLoopGo, hfail]
  · intro ps hps
    unfold shrinkPage
    by_cases h : 10000 < ps
    · rw [if_pos h]
      have h6 : 6 * ps / 10 ≤ 6 * ps / 6 := Nat.div_le_div_left (by omega) (by omega)
      have h66 : 6 * ps / 6 = ps := Nat.mul_div_cancel_left ps (by omega)
      refine ⟨le_max_left _ _, by omega, ?_⟩
      intro hgt
      omega
    · rw [if_neg h]
      exact ⟨hps, le_rfl, by omega⟩

/-- Witness for C7 at a concrete all-failures run starting from the cap. -/
theorem C7_retry_policy_witness :
    attemptLoopGo (fun _ _ => .retryable "timeout") (fun _ => 0) 4 0 50000 none [] [] =
      .err "timeout" [50000, 30000, 18000, 10800] [1/2, 1, 3/2, 2] := by
  have h := (C7_retry_policy_amended (fun _ _ => .retryable "timeout")
    (fun _ => 0) (fun _ _ => "timeout") 50000).2.2.1 (fun _ _ => rfl) 50000
  rw [h]
  norm_num [shrinkPage, backoffSleep]

/-- C4: with every window fetch succeeding, the backfill window walk
terminates after processing exactly
`min maxChunks (ceil ((endT - start) / delta))` windows, stepping backward
from `endT`; every processed window `[ws, we)` satisfies `start ≤ ws`,
`we ≤ endT` and `ws < we`, and the first window ends exactly at `endT`. -/
theorem C4_window_walk_termination (useCli : Bool)
    (cliO : ℤ → ℤ → ℕ → ℕ → List Sample)
    (fetchO : ℤ → ℤ → ℕ → Except String (List Sample))
    (start endT delta : ℤ) (maxChunks : ℕ) (updateState : Bool)
    (pts : PtsTable) (store : TsStore) (cursorCell : Option String)
    (hok : ∀ a b i, ∃ v, fetchO a b i = .ok v)
    (hse : start < endT) (hd : 0 < delta) :
    ∃ processed inserted stf cell windows,
      run_backfill_model useCli cliO fetchO start endT delta maxChunks
          updateState pts store cursorCell =
        .ok (processed, inserted, stf, cell, windows) ∧
      processed = min maxChunks
        (((endT - start).toNat + delta.toNat - 1) / delta.toNat) ∧
      windows.length = processed ∧
      (∀ p ∈ windows, start ≤ p.1 ∧ p.2 ≤ endT ∧ p.1 < p.2) ∧
      (0 < maxChunks →
        ∃ rest, windows = (max start (endT - delta), endT) :: rest) := by
  rcases run_backfill_go_ok useCli cliO fetchO start delta hok maxChunks endT
    ⟨pts, pts.rows, store⟩ 0 with ⟨stf, insf, wendf, hgo⟩
  refine ⟨(walkWindows start delta maxChunks endT).length, insf, stf,
    (if updateState then some (isoZ wendf) else cursorCell),
    walkWindows start delta maxChunks endT, ?_, ?_, rfl, ?_, ?_⟩
  · unfold run_backfill_model
    rw [hgo]
  · exact walkWindows_length start delta hd maxChunks endT hse
  · exact walkWindows_bounds start delta hd maxChunks endT
  · intro hm
    exact walkWindows_head start delta endT maxChunks hse hm

/-- Witness for C4: a concrete 3-window walk (range 1500 ms, 600 ms
windows, ceiling 10). -/
theorem C4_window_walk_witness :
    ∃ processed inserted stf cell windows,
      run_backfill_model false (fun _ _ _ _ => []) (fun _ _ _ => .ok [])
          0 1500 600 10 false ⟨[], 1⟩ [] none =
        .ok (processed, inserted, stf, cell, windows) ∧
      processed = min 10 ((((1500 : ℤ) - 0).toNat + (600 : ℤ).toNat - 1) /
        (600 : ℤ).toNat) ∧
      windows.length = processed ∧
      (∀ p ∈ windows, (0 : ℤ) ≤ p.1 ∧ p.2 ≤ 1500 ∧ p.1 < p.2) ∧
      (0 < 10 →
        ∃ rest, windows = (max 0 ((1500 : ℤ) - 600), 1500) :: rest) :=
  C4_window_walk_termination false (fun _ _ _ _ => []) (fun _ _ _ => .ok [])
    0 1500 600 10 false ⟨[], 1⟩ [] none (fun _ _ _ => ⟨[], rfl⟩)
    (by norm_num) (by norm_num)

/-- C3 counterexample: a backfill over two windows whose first fetch
exhausts its retries (the fetch raises) ABORTS the whole run with that
error — nothing is recorded and the walker does not continue. -/
theorem C3_fetch_error_abort_counterexample :
    run_backfill_model false (fun _ _ _ _ => [])
        (fun _ _ _ => .error "ACE 500: upstream boom")
        0 1200000 600000 120 false ⟨[], 1⟩ [] none =
      .error "ACE 500: upstream boom" := by
  rfl

/-- C3 (amended): in backfill mode, a window whose fetch step raises after
exhausting its retries does NOT record the error and continue — the
exception propagates out of `run_backfill` (no try/except surrounds the
fetch calls) and the whole multi-window run aborts with that error. -/
theorem C3_backfill_fetch_error_aborts
    (cliO : ℤ → ℤ → ℕ → ℕ → List Sample)
    (fetchO : ℤ → ℤ → ℕ → Except String (List Sample))
    (start endT delta : ℤ) (maxChunks : ℕ) (updateState : Bool)
    (pts : PtsTable) (store : TsStore) (cursorCell : Option String) (e : String)
    (he : fetchO (max start (endT - delta)) endT 0 = .error e)
    (hse : start < endT) (hm : 0 < maxChunks) :
    run_backfill_model false cliO fetchO start endT delta maxChunks
      updateState pts store cursorCell = .error e := by
  obtain ⟨m, rfl⟩ : ∃ m, maxChunks = m + 1 := ⟨maxChunks - 1, by omega⟩
  have hpw : processWindow false cliO fetchO (max start (endT - delta)) endT
      ⟨pts, pts.rows, store⟩ = .error e := by
    unfold processWindow
    by_cases h : get_point_names pts 100000 = []
    · rw [if_pos (by exact h)]
      rw [show chunkFetch false (cliO (max start (endT - delta)) endT 0)
            (fetchO (max start (endT - delta)) endT 0) =
          fetchO (max start (endT - delta)) endT 0 from rfl, he]
    · rw [if_neg (by exact h)]
      obtain ⟨x, xs, hxs⟩ : ∃ x xs, get_point_names pts 100000 = x :: xs := by
        cases hpn : get_point_names pts 100000 with
        | nil => exact absurd hpn h
        | cons x xs => exact ⟨x, xs, rfl⟩
      rw [hxs]
      show ((x :: xs).take 300 :: pyChunksGo 300 xs.length ((x :: xs).drop 300)).enum.foldlM
          _ _ = _
      rw [List.enum_cons]
      rw [List.foldlM_cons]
      show (match chunkFetch false (cliO (max start (endT - delta)) endT 0)
              (fetchO (max start (endT - delta)) endT 0) with
            | .error e => Except.error e
            | .ok samples => _) >>= _ = _
      rw [show chunkFetch false (cliO (max start (endT - delta)) endT 0)
            (fetchO (max start (endT - delta)) endT 0) =
          fetchO (max start (endT - delta)) endT 0 from rfl, he]
      rfl
  unfold run_backfill_model
  rw [run_backfill_go, if_pos hse]
  simp only [hpw]

/-- Witness for C3 (amended) at a concrete aborting run. -/
theorem C3_backfill_fetch_error_aborts_witness :
    run_backfill_model false (fun _ _ _ _ => [])
        (fun a _ i => if a = 600000 ∧ i = 0 then .error "boom" else .ok [])
        0 1200000 600000 120 true ⟨[("p", 7)], 8⟩ [] none = .error "boom" :=
  C3_backfill_fetch_error_aborts (fun _ _ _ _ => [])
    (fun a _ i => if a = 600000 ∧ i = 0 then .error "boom" else .ok [])
    0 1200000 600000 120 true ⟨[("p", 7)], 8⟩ [] none "boom"
    (by norm_num) (by norm_num) (by norm_num)

/-- C5 counterexample: with no persisted cursor and an earliest stored
timestamp of exactly the epoch (`1970-01-01T00:00:00Z`, 0 ms), the Python
truthiness test `if earliest_ms else now` (line 610) discards it, and the
run starts at `now` instead of at the earliest timestamp present in
storage. -/
theorem C5_epoch_earliest_counterexample :
    get_site_earliest_ts (some "1970-01-01T00:00:00Z") 0 = some 0 ∧
    resolveEndMs none (some "1970-01-01T00:00:00Z") 1760227200000 0 =
      some 1760227200000 ∧ (1760227200000 : ℤ) ≠ 0 :=
  ⟨rfl, rfl, by norm_num⟩

/-- C5 (amended): a backfill run invoked without an explicit end starts its
first window at the persisted cursor `C` when one exists; with no cursor it
starts at the earliest timestamp already present in storage UNLESS that
timestamp is exactly 0 epoch-milliseconds (Python falsiness), in which
case — as when storage holds no rows — it starts at the current time. -/
theorem C5_resume_cursor_amended (cursorCell earliestCell : Option String)
    (now tz : ℤ) :
    (∀ s C, cursorCell = some s → s ≠ "" → parse_iso_ms s tz = some C →
      resolveEndMs cursorCell earliestCell now tz = some C) ∧
    (∀ e, get_ingest_cursor cursorCell = none →
      get_site_earliest_ts earliestCell tz = some e → e ≠ 0 →
      resolveEndMs cursorCell earliestCell now tz = some e) ∧
    (get_ingest_cursor cursorCell = none →
      (get_site_earliest_ts earliestCell tz = none ∨
        get_site_earliest_ts earliestCell tz = some 0) →
      resolveEndMs cursorCell earliestCell now tz = some now) ∧
    (∀ (useCli : Bool) (cliO : ℤ → ℤ → ℕ → ℕ → List Sample)
        (fetchO : ℤ → ℤ → ℕ → Except String (List Sample))
        (start delta endMs : ℤ) (maxChunks : ℕ) (updateState : Bool)
        (pts : PtsTable) (store : TsStore) (cell2 : Option String),
      (∀ a b i, ∃ v, fetchO a b i = .ok v) →
      resolveEndMs cursorCell earliestCell now tz = some endMs →
      start < endMs → 0 < maxChunks →
      ∃ processed inserted stf cellf rest,
        run_backfill_model useCli cliO fetchO start endMs delta maxChunks
            updateState pts store cell2 =
          .ok (processed, inserted, stf, cellf,
            (max start (endMs - delta), endMs) :: rest)) := by
  refine ⟨?_, ?_, ?_, ?_⟩
  · intro s C hcell hne hparse
    unfold resolveEndMs get_ingest_cursor
    rw [hcell]
    dsimp only
    rw [if_neg hne]
    exact hparse
  · intro e hcur hearly hne
    unfold resolveEndMs
    rw [hcur, hearly]
    dsimp only
    rw [if_pos hne]
  · intro hcur hearly
    unfold resolveEndMs
    rw [hcur]
    rcases hearly with h | h
    · rw [h]
    · rw [h]
      dsimp only
      norm_num
  · intro useCli cliO fetchO start delta endMs maxChunks updateState pts store
      cell2 hok _ hse hm
    rcases run_backfill_go_ok useCli cliO fetchO start delta hok maxChunks endMs
      ⟨pts, pts.rows, store⟩ 0 with ⟨stf, insf, wendf, hgo⟩
    rcases walkWindows_head start delta endMs maxChunks hse hm with ⟨rest, hhead⟩
    refine ⟨(walkWindows start delta maxChunks endMs).length, insf, stf,
      (if updateState then some (isoZ wendf) else cell2), rest, ?_⟩
    unfold run_backfill_model
    rw [hgo, hhead]

/-- Witness for C5 at a concrete persisted cursor. -/
theorem C5_resume_cursor_witness :
    resolveEndMs (some "2025-10-01T00:00:00Z") none 999 0 =
      some 1759276800000 :=
  (C5_resume_cursor_amended (some "2025-10-01T00:00:00Z") none 999 0).1
    "2025-10-01T00:00:00Z" 1759276800000 rfl (by decide) rfl

/-- C1 counterexample: a raw record with value `"inf"` passes
`transform_samples` (its only value check is the NaN self-equality test,
main.py line 388) and the resulting +Infinity row is written to storage by
`sync_site` — the transform path does not reject ±Infinity. -/
theorem C1_infinity_reaches_store_counterexample :
    (sync_site_model
        (fun _ => .resp 200 (.object (.list
          [⟨some "p1", none, none, .tstr "2024-01-01T00:00:00Z", .tnone, .tnone,
            .pstr "inf"⟩]) none))
        0 ⟨[("p1", 1)], 2⟩ [] 100).1.store =
      [((1, "2024-01-01T00:00:00+00:00"), PyFloat.inf)] ∧
    PyFloat.inf.isFinite = false :=
  ⟨rfl, rfl⟩

/-- C1 (amended): the backfill path (`fetch_paginated_window` record
normalisation, and the row preparation of the backfill `upsert_timeseries`)
rejects every record whose value is a non-finite literal string or coerces
to a non-finite float — every sample it emits and every row it passes to
the storage write is finite.  The `transform_samples` path rejects only
NaN (via `v == v`); ±Infinity passes through it (see the counterexample). -/
theorem C1_nonfinite_rejected_amended :
    (∀ (r : RawRecord) (tz : ℤ) (s : Sample),
      backfillNormalize r tz = some s → s.value.isFinite = true) ∧
    (∀ (map_ids : List (String × ℤ)) (samples : List Sample) (row : TRow),
      row ∈ prepareRows map_ids samples → row.value.isFinite = true) ∧
    (∀ (cache : List (String × ℤ)) (tz : ℤ) (smp : RawRecord) (row : TRow),
      transformOne cache tz smp = some row → row.value ≠ PyFloat.nan) := by
  refine ⟨?_, ?_, ?_⟩
  · intro r tz s h
    unfold backfillNormalize at h
    cases hts : backfillParseTs (pickTime r) tz with
    | none => rw [hts] at h; cases h
    | some tsv =>
      rw [hts] at h
      dsimp only at h
      by_cases hlit : isNonFiniteLiteral r.value
      · rw [if_pos hlit] at h; cases h
      · rw [if_neg hlit] at h
        cases hv : pyFloatOf r.value with
        | none => rw [hv] at h; cases h
        | some v =>
          rw [hv] at h
          dsimp only at h
          by_cases hf : v.isFinite
          · rw [if_pos hf] at h
            cases hn : pickName r with
            | none => rw [hn] at h; cases h
            | some nm =>
              rw [hn] at h
              dsimp only at h
              obtain rfl := Option.some.inj h
              exact hf
          · rw [if_neg hf] at h; cases h
  · intro map_ids samples row hrow
    unfold prepareRows at hrow
    rcases List.mem_filterMap.mp hrow with ⟨s, _, hmap⟩
    by_cases hf : s.value.isFinite
    · rw [if_pos hf] at hmap
      cases hl : alistLookup map_ids s.point_name with
      | none => rw [hl] at hmap; cases hmap
      | some pid =>
        rw [hl] at hmap
        obtain rfl := Option.some.inj hmap
        exact hf
    · rw [if_neg hf] at hmap; cases hmap
  · intro cache tz smp row h
    unfold transformOne at h
    cases hn : pickName smp with
    | none => rw [hn] at h; cases h
    | some name =>
      rw [hn] at h
      dsimp only at h
      cases hc : alistLookup cache name with
      | none => rw [hc] at h; cases h
      | some pid =>
        rw [hc] at h
        dsimp only at h
        by_cases hz : pid = 0
        · rw [if_pos hz] at h; cases h
        · rw [if_neg hz] at h
          cases ht : transformParseTs (pickTime smp) tz with
          | none => rw [ht] at h; cases h
          | some dt =>
            rw [ht] at h
            dsimp only at h
            cases hv : pyFloatOf smp.value with
            | none => rw [hv] at h; cases h
            | some v =>
              rw [hv] at h
              dsimp only at h
              by_cases hsel : v.selfEq
              · rw [if_pos hsel] at h
                obtain rfl := Option.some.inj h
                intro hnan
                rw [show (⟨pid, dt.isoformat, v⟩ : TRow).value = v from rfl] at hnan
                rw [hnan] at hsel
                exact absurd hsel (by simp [PyFloat.selfEq])
              · rw [if_neg hsel] at h; cases h

/-- Witness for C1 at a concrete finite record. -/
theorem C1_nonfinite_rejected_witness :
    ((⟨"p", 5, .fin 1⟩ : Sample)).value.isFinite = true :=
  C1_nonfinite_rejected_amended.1
    ⟨some "p", none, none, .tint 5, .tnone, .tnone, .pfloat (.fin 1)⟩ 0
    ⟨"p", 5, .fin 1⟩ rfl

/-- C8 counterexample: the per-window wall-clock budget also ends the
pagination loop — here it ends with a non-null continuation cursor in hand
and only one page fetched (far below the ceiling), so the cursor's absence
and the page ceiling are not the only loop enders. -/
theorem C8_budget_ends_loop_counterexample :
    fetch_paginated_window_model
      (fun _ _ _ => .succ ⟨none, some "c1"⟩) (fun _ _ => 0)
      (fun i => if i = 0 then 0 else 179) 180 0 10000 =
    .done [] .budget := rfl

/-- C8 (amended): a page with zero records but a non-null continuation
cursor never by itself ends a pagination loop — both the backfill loop and
the sync_site loop continue following the cursor; the backfill loop ends
only when the continuation cursor is absent, the fixed page-count ceiling
is reached, or the per-window time budget expires (it never runs out of
fuel), and the sync loop behaves likewise within its `max_pages` bound. -/
theorem C8_empty_page_continues_amended
    (pa : ℕ → ℕ → ℕ → AttemptOutcome) (jit : ℕ → ℕ → ℚ) (el : ℕ → ℕ)
    (timeout tz : ℤ) (oracle : ℕ → HttpResult) :
    -- (a) backfill loop: empty page + cursor ⇒ one more iteration
    (∀ (fuel i pages ps ps' : ℕ) (cursor : Option String) (out : List Sample)
        (d : PageData) (nc : String) (szs : List ℕ) (sl : List ℚ),
      ¬ max 1 (timeout - (el i : ℤ)) ≤ 2 →
      attemptLoopGo (pa i) (jit i) 4 0 ps none [] [] = .ok d ps' szs sl →
      d.point_samples.getD [] = [] →
      truthyStr d.next_cursor = some nc →
      pages + 1 ≤ 200 →
      fetch_window_go pa jit el timeout tz (fuel + 1) i cursor pages ps out =
        fetch_window_go pa jit el timeout tz fuel (i + 1) (some nc) (pages + 1)
          ps' out) ∧
    -- (b) the loop never exhausts its fuel: it ends only via an explicit
    -- exit (budget, cursor absence, ceiling) or a raised fetch error
    (∀ page_size : ℤ,
      fetch_paginated_window_model pa jit el timeout tz page_size ≠ .fuelOut) ∧
    -- (c) sync_site loop: empty page + truthy cursor ⇒ one more iteration
    (∀ (fuel i : ℕ) (st : SyncState) (raw : List RawRecord)
        (next : Option String) (nc : String),
      fetch_timeseries_page (oracle i) = (raw, next, none) →
      raw = [] →
      truthyStr next = some nc →
      sync_site_go oracle tz (fuel + 1) i st =
        sync_site_go oracle tz fuel (i + 1)
          { st with cursor := some nc, pages := st.pages + 1 }) := by
  refine ⟨?_, ?_, ?_⟩
  · intro fuel i pages ps ps' cursor out d nc szs sl hb hstep hrows hcur hceil
    rw [fetch_window_go]
    simp only [if_neg hb, hstep, hrows, hcur]
    simp
    omega
  · intro page_size
    unfold fetch_paginated_window_model
    have main : ∀ (fuel i pages ps : ℕ) (cursor : Option String)
        (out : List Sample), 200 - pages < fuel →
        fetch_window_go pa jit el timeout tz fuel i cursor pages ps out ≠
          .fuelOut := by
      intro fuel
      induction fuel with
      | zero => intro i pages ps cursor out h; omega
      | succ fuel ih =>
        intro i pages ps cursor out h
        rw [fetch_window_go]
        by_cases hb : max 1 (timeout - (el i : ℤ)) ≤ 2
        · rw [if_pos hb]; intro hc; cases hc
        · rw [if_neg hb]
          cases hstep : attemptLoopGo (pa i) (jit i) 4 0 ps none [] [] with
          | err e szs sl => intro hc; cases hc
          | ok d ps' szs sl =>
            dsimp only
            by_cases hrows : d.point_samples.getD [] = []
            · rw [if_pos hrows]
              cases hcur : truthyStr d.next_cursor with
              | none => intro hc; cases hc
              | some nc =>
                dsimp only
                by_cases hceil : 200 < pages + 1
                · rw [if_pos hceil]; intro hc; cases hc
                · rw [if_neg hceil]
                  exact ih (i + 1) (pages + 1) ps' (some nc) out (by omega)
            · rw [if_neg hrows]
              cases hcur : truthyStr d.next_cursor with
              | none => intro hc; cases hc
              | some nc =>
                dsimp only
                by_cases hceil : 200 < pages + 1
                · rw [if_pos hceil]; intro hc; cases hc
                · rw [if_neg hceil]
                  exact ih (i + 1) (pages + 1) ps' (some nc) _ (by omega)
    exact main 300 0 0 (initPageSize page_size) none [] (by omega)
  · intro fuel i st raw next nc hfetch hraw hcur
    rw [sync_site_go, hfetch]
    dsimp only
    subst hraw
    rw [if_pos rfl, hcur]

/-- Witness for C8: a concrete empty page whose cursor keeps both loops
going. -/
theorem C8_empty_page_continues_witness :
    fetch_window_go (fun _ _ _ => .succ ⟨some [], some "c2"⟩) (fun _ _ => 0)
        (fun _ => 0) 180 0 7 0 none 5 10000 [] =
      fetch_window_go (fun _ _ _ => .succ ⟨some [], some "c2"⟩) (fun _ _ => 0)
        (fun _ => 0) 180 0 6 1 (some "c2") 6 10000 [] ∧
    fetch_paginated_window_model (fun _ _ _ => .succ ⟨none, none⟩)
      (fun _ _ => 0) (fun _ => 0) 180 0 10000 ≠ .fuelOut := by
  constructor
  · exact (C8_empty_page_continues_amended (fun _ _ _ => .succ ⟨some [], some "c2"⟩)
      (fun _ _ => 0) (fun _ => 0) 180 0 (fun _ => .netErr "x")).1
      6 0 5 10000 10000 none [] ⟨some [], some "c2"⟩ "c2" [10000] []
      (by norm_num) rfl rfl rfl (by norm_num)
  · exact (C8_empty_page_continues_amended (fun _ _ _ => .succ ⟨none, none⟩)
      (fun _ _ => 0) (fun _ => 0) 180 0 (fun _ => .netErr "x")).2.1 10000

/-- C9 counterexample: `transform_samples` converts an integer timestamp
with `datetime.fromtimestamp(t / 1000.0)` — no tz argument — so the
produced timestamp is the process-LOCAL wall-clock time with no offset
marker: the output differs between a UTC+05:00 process (tz = 300 min) and
a UTC process, hence it is not a UTC instant. -/
theorem C9_local_timezone_counterexample :
    transform_samples [⟨some "p1", none, none, .tint 1000, .tnone, .tnone,
        .pfloat (.fin 1)⟩] [("p1", 1)] 300 =
      [⟨1, "1970-01-01T05:00:01", .fin 1⟩] ∧
    transform_samples [⟨some "p1", none, none, .tint 1000, .tnone, .tnone,
        .pfloat (.fin 1)⟩] [("p1", 1)] 0 =
      [⟨1, "1970-01-01T00:00:01", .fin 1⟩] ∧
    ("1970-01-01T05:00:01" : String) ≠ "1970-01-01T00:00:01" :=
  ⟨rfl, rfl, by decide⟩

/-- C9 (amended): the backfill path interprets an integer timestamp as
epoch milliseconds (timezone-independently; an integer 0 is treated as an
absent field by the truthy alias chain), treats a trailing `Z` as the UTC
offset `+00:00` (making the parsed instant independent of the local
timezone), and rejects records whose timestamp fails to parse.  The
`transform_samples` path instead converts integer timestamps with the
process-LOCAL timezone into a naive datetime carrying no UTC anchor. -/
theorem C9_timestamp_normalization_amended :
    (∀ (n tz : ℤ), backfillParseTs (.tint n) tz = some n) ∧
    (∀ (r : RawRecord) (n : ℤ), r.time = .tint n → n ≠ 0 →
      pickTime r = .tint n) ∧
    (∀ s : String, (∀ c ∈ s.data, c ≠ 'Z') →
      replaceZ (s ++ "Z") = s ++ "+00:00") ∧
    (∀ (s : String) (dt : PyDateTime), s.data ≠ [] →
      fromisoformat (s ++ "+00:00") = some dt → dt.tzOffsetMin = some 0) ∧
    (∀ (s : String) (tz tz' : ℤ), (∀ c ∈ s.data, c ≠ 'Z') →
      backfillParseTs (.tstr (s ++ "Z")) tz =
        backfillParseTs (.tstr (s ++ "Z")) tz') ∧
    (∀ (r : RawRecord) (tz : ℤ), backfillParseTs (pickTime r) tz = none →
      backfillNormalize r tz = none) ∧
    (∀ (cache : List (String × ℤ)) (tz : ℤ) (smp : RawRecord) (row : TRow),
      transformOne cache tz smp = some row →
      transformParseTs (pickTime smp) tz ≠ none) ∧
    (∀ (n tz : ℤ), transformParseTs (.tint n) tz =
        some (fromtimestampLocal n tz) ∧
      (fromtimestampLocal n tz).tzOffsetMin = none) := by
  refine ⟨fun n tz => rfl, ?_, ?_, ?_, ?_, ?_, ?_, fun n tz => ⟨rfl, rfl⟩⟩
  · intro r n ht hn
    simp [pickTime, TimeVal.pyOr, ht, TimeVal.truthy, hn]
  · exact fun s h => replaceZ_append_z s h
  · intro s dt hne hparse
    rw [fromisoformat_offset _ _ hparse]
    have hd : (s ++ "+00:00").data = s.data ++ ['+', '0', '0', ':', '0', '0'] := by
      rw [String.data_append]
    rw [hd, splitIsoOffset_append s.data hne]
  · intro s tz tz' hz
    show parse_iso_ms (s ++ "Z") tz = parse_iso_ms (s ++ "Z") tz'
    unfold parse_iso_ms
    rw [replaceZ_append_z s hz]
    cases hf : fromisoformat (s ++ "+00:00") with
    | none => rfl
    | some dt =>
      have hne : s.data ≠ [] := by
        intro hnil
        have hs : s = "" := String.ext hnil
        have hnone : fromisoformat ("" ++ "+00:00") = none := by decide
        rw [hs, hnone] at hf
        cases hf
      have hoff : dt.tzOffsetMin = some 0 := by
        rw [fromisoformat_offset _ _ hf]
        have hd : (s ++ "+00:00").data = s.data ++ ['+', '0', '0', ':', '0', '0'] := by
          rw [String.data_append]
        rw [hd, splitIsoOffset_append s.data hne]
      rw [Option.map_some', Option.map_some', timestampMs_aware dt 0 tz tz' hoff]
  · intro r tz h
    unfold backfillNormalize
    rw [h]
  · intro cache tz smp row h
    unfold transformOne at h
    cases hn : pickName smp with
    | none => rw [hn] at h; cases h
    | some name =>
      rw [hn] at h
      dsimp only at h
      cases hc : alistLookup cache name with
      | none => rw [hc] at h; cases h
      | some pid =>
        rw [hc] at h
        dsimp only at h
        by_cases hz : pid = 0
        · rw [if_pos hz] at h; cases h
        · rw [if_neg hz] at h
          intro hts
          rw [hts] at h
          cases h

/-- Witness for C9 at a concrete integer timestamp and Z-suffixed string. -/
theorem C9_timestamp_normalization_witness :
    backfillParseTs (.tint 1696118400000) 300 = some 1696118400000 ∧
    replaceZ ("2025-10-01T00:00:00" ++ "Z") = "2025-10-01T00:00:00" ++ "+00:00" ∧
    backfillParseTs (.tstr ("2025-10-01T00:00:00" ++ "Z")) 300 =
      backfillParseTs (.tstr ("2025-10-01T00:00:00" ++ "Z")) 0 :=
  ⟨C9_timestamp_normalization_amended.1 1696118400000 300,
   C9_timestamp_normalization_amended.2.2.1 "2025-10-01T00:00:00" (by decide),
   C9_timestamp_normalization_amended.2.2.2.2.1 "2025-10-01T00:00:00" 300 0
     (by decide)⟩

/-- C2: the timeseries write is idempotent over the conflict key
`(point_id, ts)`: applying the writer to the same sample set twice yields
the same final row set as applying it once.  For the backfill
`upsert_timeseries` (which also manages the point table and point cache)
this holds under the engine invariant that the in-run point cache agrees
with the points table; for main.py's `SupabaseClient.upsert_timeseries` it
holds for every store and prepared row list unconditionally. -/
theorem C2_writer_idempotent (t : PtsTable) (cache : List (String × ℤ))
    (st : TsStore) (samples : List Sample) (hagree : PtsAgree cache t) :
    ((upsert_timeseries_backfill
        (upsert_timeseries_backfill t cache st samples).1
        (upsert_timeseries_backfill t cache st samples).2.1
        (upsert_timeseries_backfill t cache st samples).2.2.1 samples).1
      = (upsert_timeseries_backfill t cache st samples).1 ∧
     (upsert_timeseries_backfill
        (upsert_timeseries_backfill t cache st samples).1
        (upsert_timeseries_backfill t cache st samples).2.1
        (upsert_timeseries_backfill t cache st samples).2.2.1 samples).2.1
      = (upsert_timeseries_backfill t cache st samples).2.1 ∧
     LookupEq
       (upsert_timeseries_backfill
         (upsert_timeseries_backfill t cache st samples).1
         (upsert_timeseries_backfill t cache st samples).2.1
         (upsert_timeseries_backfill t cache st samples).2.2.1 samples).2.2.1
       (upsert_timeseries_backfill t cache st samples).2.2.1) ∧
    (∀ (st0 : TsStore) (rows : List TRow),
      LookupEq
        (upsert_timeseries_main (upsert_timeseries_main st0 rows).1 rows).1
        (upsert_timeseries_main st0 rows).1) := by
  constructor
  · by_cases hsamp : samples = []
    · subst hsamp
      exact ⟨rfl, rfl, fun k => rfl⟩
    · have hstable := upsert_points_backfill_stable t cache
        (pyDedupFirst (samples.filterMap
          (fun s => if s.point_name ≠ "" then some s.point_name else none)))
        hagree
      simp only [upsert_timeseries_backfill, if_neg hsamp]
      rw [hstable]
      exact ⟨rfl, rfl, tsApplyBatches_idem_lookup st _⟩
  · intro st0 rows
    rw [upsert_timeseries_main_fst, upsert_timeseries_main_fst]
    exact tsUpsertBatch_idem st0 rows

/-- Witness for C2: a fresh table, empty cache and empty store with one
concrete sample; the agreement hypothesis holds trivially. -/
theorem C2_writer_idempotent_witness :
    PtsAgree [] ⟨[], 1⟩ ∧
    (((upsert_timeseries_backfill
        (upsert_timeseries_backfill ⟨[], 1⟩ [] [] [⟨"p", 1000, PyFloat.fin 1⟩]).1
        (upsert_timeseries_backfill ⟨[], 1⟩ [] [] [⟨"p", 1000, PyFloat.fin 1⟩]).2.1
        (upsert_timeseries_backfill ⟨[], 1⟩ [] []
          [⟨"p", 1000, PyFloat.fin 1⟩]).2.2.1
        [⟨"p", 1000, PyFloat.fin 1⟩]).1
      = (upsert_timeseries_backfill ⟨[], 1⟩ [] [] [⟨"p", 1000, PyFloat.fin 1⟩]).1 ∧
     (upsert_timeseries_backfill
        (upsert_timeseries_backfill ⟨[], 1⟩ [] [] [⟨"p", 1000, PyFloat.fin 1⟩]).1
        (upsert_timeseries_backfill ⟨[], 1⟩ [] [] [⟨"p", 1000, PyFloat.fin 1⟩]).2.1
        (upsert_timeseries_backfill ⟨[], 1⟩ [] []
          [⟨"p", 1000, PyFloat.fin 1⟩]).2.2.1
        [⟨"p", 1000, PyFloat.fin 1⟩]).2.1
      = (upsert_timeseries_backfill ⟨[], 1⟩ [] []
          [⟨"p", 1000, PyFloat.fin 1⟩]).2.1 ∧
     LookupEq
       (upsert_timeseries_backfill
         (upsert_timeseries_backfill ⟨[], 1⟩ [] [] [⟨"p", 1000, PyFloat.fin 1⟩]).1
         (upsert_timeseries_backfill ⟨[], 1⟩ [] [] [⟨"p", 1000, PyFloat.fin 1⟩]).2.1
         (upsert_timeseries_backfill ⟨[], 1⟩ [] []
           [⟨"p", 1000, PyFloat.fin 1⟩]).2.2.1
         [⟨"p", 1000, PyFloat.fin 1⟩]).2.2.1
       (upsert_timeseries_backfill ⟨[], 1⟩ [] []
         [⟨"p", 1000, PyFloat.fin 1⟩]).2.2.1) ∧
    (∀ (st0 : TsStore) (rows : List TRow),
      LookupEq
        (upsert_timeseries_main (upsert_timeseries_main st0 rows).1 rows).1
        (upsert_timeseries_main st0 rows).1)) :=
  ⟨fun n => rfl,
   C2_writer_idempotent ⟨[], 1⟩ [] [] [⟨"p", 1000, PyFloat.fin 1⟩] (fun n => rfl)⟩

end BV
